import Mathlib

/-!
Verification development for the Mayo property / settings framework
(`src/base/property_value_conversion.cpp`, `src/base/settings.cpp`).

The C++ sources are embedded shallowly: pure dispatch code is translated
function by function; the mutable registry (`Settings`) becomes explicit
state passing over a `SettingsState` record, properties living behind
pointers become a `Heap` mapping pointer ids to `Property` records, and
the external `QSettings` key-value store becomes an association list.
Components of the repository that are not part of the sampled sources
(unit system, enumeration lookup, `Property::setValue`, Qt types) are
modelled from the specification and are marked as such in their doc
comments.
-/

namespace Mayo

/-- `TextId`: namespaced identifier, equality by (context, key).  Only the
`key` participates in persistence paths (`settings.cpp`). -/
structure TextId where
  trContext : String
  key : String
deriving DecidableEq, Repr

/-- Modelled from the spec: the closed set of physical dimensions of the
unit system (`Unit` enum of `unit_system.h`, not part of the sampled
sources).  `noUnit` stands for `Unit::None`. -/
inductive Unit' where
  | noUnit
  | length
  | angle
  | mass
  | time
deriving DecidableEq, Repr

/-- The generic variant representation crossing the persistence boundary
(`QVariant` restricted to the shapes of spec section 6).  `Variant.none`
is the default-constructed, invalid `QVariant()`. -/
inductive Variant where
  | none
  | bool (b : Bool)
  | int (i : Int)
  | double (q : ℚ)
  | string (s : String)
  | byteArray (s : String)
  | stringList (l : List String)
  | dateTime (t : Int)
deriving DecidableEq, Repr

/-- Modelled from the spec: Qt's `QVariant::toBool` coercion. -/
def Variant.toBool : Variant → Bool
  | .bool b => b
  | .int i => i != 0
  | .double q => q != 0
  | .string s => !(s = "" || s = "0" || s = "false")
  | .byteArray s => !(s = "" || s = "0" || s = "false")
  | _ => false

/-- Digit value of a decimal digit character. -/
def digitVal (c : Char) : Option Nat :=
  if c.isDigit then some (c.toNat - 48) else none

/-- Consume a maximal run of decimal digits, returning the accumulated
value, the number of digits consumed and the rest of the input. -/
def parseDigits : List Char → Nat → Nat → Nat × Nat × List Char
  | [], acc, n => (acc, n, [])
  | c :: cs, acc, n =>
    match digitVal c with
    | some d => parseDigits cs (acc * 10 + d) (n + 1)
    | Option.none => (acc, n, c :: cs)

/-- Modelled from the spec: locale-insensitive parse of a decimal number
`[-]digits[.digits]` (decimal point, not comma); fails on malformed
numeric text.  Returns the value and the unconsumed suffix. -/
def parseNumber (cs : List Char) : Option (ℚ × List Char) :=
  let (neg, cs1) :=
    match cs with
    | '-' :: rest => (true, rest)
    | _ => (false, cs)
  let (ip, n1, cs2) := parseDigits cs1 0 0
  match cs2 with
  | '.' :: cs3 =>
    let (fp, n2, cs4) := parseDigits cs3 0 0
    if n1 + n2 = 0 then Option.none
    else
      let v : ℚ := (ip : ℚ) + (fp : ℚ) / ((10 : ℚ) ^ n2)
      some (if neg then -v else v, cs4)
  | _ =>
    if n1 = 0 then Option.none
    else some (if neg then -(ip : ℚ) else (ip : ℚ), cs2)

/-- Result record of the unit system's translate/parse operations
(`UnitSystem::TranslateResult`): value, conversion factor and unit
symbol text (`Option.none` models a null `strUnit` pointer). -/
structure TranslateResult where
  value : ℚ
  factor : ℚ
  strUnit : Option String
deriving DecidableEq, Repr

/-- Modelled from the spec: the table of known unit symbols with their
dimension and the conversion factor to the internal unit of that
dimension (internal units: millimeter, radian, kilogram, second). -/
def unitTable : List (String × Unit' × ℚ) :=
  [("mm", Unit'.length, 1),
   ("cm", Unit'.length, 10),
   ("m", Unit'.length, 1000),
   ("in", Unit'.length, 127 / 5),
   ("rad", Unit'.angle, 1),
   ("deg", Unit'.angle, 314159 / 18000000),
   ("kg", Unit'.mass, 1),
   ("s", Unit'.time, 1)]

/-- Modelled from the spec: `UnitSystem::parseQuantity` — parse a string
of the form `<number><optional unit symbol>`; no symbol means unit
`None`; an unrecognized symbol or malformed number fails explicitly
(null `strUnit`). -/
def parseQuantity (s : String) : TranslateResult × Unit' :=
  match parseNumber s.toList with
  | Option.none => (⟨0, 0, Option.none⟩, Unit'.noUnit)
  | some (v, rest) =>
    if rest.isEmpty then (⟨v, 1, some ""⟩, Unit'.noUnit)
    else
      match unitTable.find? (fun e => e.1 = String.mk rest) with
      | some (sym, u, f) => (⟨v, f, some sym⟩, u)
      | Option.none => (⟨0, 0, Option.none⟩, Unit'.noUnit)

/-- Modelled from the spec: `UnitSystem::translate` to the SI family —
factor and display symbol for a quantity stored in the internal unit of
its dimension. -/
def translateSI : Unit' → ℚ × String
  | Unit'.noUnit => (1, "")
  | Unit'.length => (1, "mm")
  | Unit'.angle => (1, "rad")
  | Unit'.mass => (1, "kg")
  | Unit'.time => (1, "s")

/-- Qt's `qFuzzyIsNull` on the rational model of a double:
`|q| ≤ 10 ^ (-12)`, phrased over numerator and denominator so that it
evaluates by kernel reduction. -/
def fuzzyIsNull (q : ℚ) : Bool :=
  q.num.natAbs * 1000000000000 ≤ q.den

/-- Fractional digits of `num / den` to at most `prec` places, stopping
early when the remainder vanishes. -/
def fracDigits : Nat → Nat → Nat → List Char
  | 0, _, _ => []
  | _ + 1, _, 0 => []
  | p + 1, r, den =>
    if r = 0 then []
    else Char.ofNat (48 + (r * 10) / den) :: fracDigits p ((r * 10) % den) den

/-- Modelled from the spec: decimal rendering of a rational with the
converter's configured precision (stand-in for `std::to_chars` on the
double value). -/
def formatRat (prec : Nat) (q : ℚ) : String :=
  let sign := if q < 0 then "-" else ""
  let a := q.num.natAbs
  let ip := a / q.den
  let fd := fracDigits prec (a % q.den) q.den
  sign ++ toString ip ++ (if fd.isEmpty then "" else "." ++ String.mk fd)

/-- Hexadecimal digit value. -/
def hexVal (c : Char) : Option Nat :=
  if c.isDigit then some (c.toNat - 48)
  else if 'a' ≤ c ∧ c ≤ 'f' then some (c.toNat - 97 + 10)
  else if 'A' ≤ c ∧ c ≤ 'F' then some (c.toNat - 65 + 10)
  else Option.none

/-- Modelled from the spec: `TKernelUtils::colorFromHex` — accepts
exactly the text form `#RRGGBB` and fails on anything else. -/
def colorFromHex (s : String) : Option (Nat × Nat × Nat) :=
  match s.toList with
  | ['#', r1, r0, g1, g0, b1, b0] =>
    match hexVal r1, hexVal r0, hexVal g1, hexVal g0, hexVal b1, hexVal b0 with
    | some a, some b, some c, some d, some e, some f =>
      some (a * 16 + b, c * 16 + d, e * 16 + f)
    | _, _, _, _, _, _ => Option.none
  | _ => Option.none

/-- Lower-case hexadecimal digit character of `n % 16`. -/
def hexChar (n : Nat) : Char :=
  if n < 10 then Char.ofNat (48 + n) else Char.ofNat (97 + (n - 10))

/-- Modelled from the spec: `TKernelUtils::colorToHex` — `#RRGGBB`
hexadecimal text, no alpha. -/
def colorToHex (r g b : Nat) : String :=
  String.mk ['#', hexChar (r / 16 % 16), hexChar (r % 16),
             hexChar (g / 16 % 16), hexChar (g % 16),
             hexChar (b / 16 % 16), hexChar (b % 16)]

/-- The typed value stored by a concrete property, one constructor per
property kind dispatched on by `PropertyValueConversion`
(`property_builtins.h`).  An enumeration property carries its injected
enumeration (list of name/value items) together with the current
discriminant; a quantity property carries its value in the internal
unit together with its dimension tag. -/
inductive PropValue where
  | bool (b : Bool)
  | int (i : Int)
  | double (q : ℚ)
  | checkState (c : Nat)
  | byteArray (s : String)
  | string (s : String)
  | stringList (l : List String)
  | dateTime (t : Int)
  | occPnt (x y z : ℚ)
  | occTrsf
  | occColor (r g b : Nat)
  | enumeration (items : List (String × Int)) (v : Int)
  | quantity (v : ℚ) (u : Unit')
deriving DecidableEq, Repr

/-- Same property kind (same constructor): `setValue` on a typed C++
property can only ever be handed a value of its own type. -/
def PropValue.kindEq : PropValue → PropValue → Bool
  | .bool _, .bool _ => true
  | .int _, .int _ => true
  | .double _, .double _ => true
  | .checkState _, .checkState _ => true
  | .byteArray _, .byteArray _ => true
  | .string _, .string _ => true
  | .stringList _, .stringList _ => true
  | .dateTime _, .dateTime _ => true
  | .occPnt _ _ _, .occPnt _ _ _ => true
  | .occTrsf, .occTrsf => true
  | .occColor _ _ _, .occColor _ _ _ => true
  | .enumeration _ _, .enumeration _ _ => true
  | .quantity _ _, .quantity _ _ => true
  | _, _ => false

/-- Modelled from the spec: the component-specific domain constraint a
`setValue` call is checked against (e.g. the min/max range of a bounded
numeric property); `free` means unconstrained. -/
inductive Constraint where
  | free
  | intRange (lo hi : Int)
  | ratRange (lo hi : ℚ)
deriving DecidableEq, Repr

/-- Whether a candidate value satisfies a domain constraint. -/
def checkConstraint : Constraint → PropValue → Bool
  | Constraint.free, _ => true
  | Constraint.intRange lo hi, PropValue.int i => lo ≤ i ∧ i ≤ hi
  | Constraint.intRange _ _, _ => true
  | Constraint.ratRange lo hi, PropValue.double q => lo ≤ q ∧ q ≤ hi
  | Constraint.ratRange lo hi, PropValue.quantity q _ => lo ≤ q ∧ q ≤ hi
  | Constraint.ratRange _ _, _ => true

/-- A property: name (`TextId`), typed value and domain constraint.
Description text, enabled flag and the owning-group back reference of
the C++ `Property` are omitted — no operation embedded here reads
them. -/
structure Property where
  name : TextId
  value : PropValue
  constraint : Constraint
deriving DecidableEq, Repr

/-- Modelled from the spec: `Property::setValue` returns `false` and
leaves the stored value unchanged when the component-specific domain
constraint rejects the candidate (or on a kind mismatch, impossible on
the typed C++ side); otherwise it stores the value and returns
`true`. -/
def Property.setValue (prop : Property) (v : PropValue) : Bool × Property :=
  if prop.value.kindEq v && checkConstraint prop.constraint v then
    (true, { prop with value := v })
  else
    (false, prop)

/-- Modelled from the spec: `Enumeration::findItem` — first item whose
name matches, or `none`. -/
def findItem (items : List (String × Int)) (name : String) : Option (String × Int) :=
  items.find? (fun it => it.1 = name)

/-- Modelled from the spec: `Enumeration::findName` /
`PropertyEnumeration::name` — the symbolic name of the current
discriminant. -/
def enumName (items : List (String × Int)) (v : Int) : String :=
  (((items.find? (fun it => it.2 = v)).map Prod.fst)).getD ""

/-- Modelled from the spec: Qt's `QVariant::toString` coercion (identity
on text shapes, textual form of scalars, empty for the rest). -/
def Variant.toText : Variant → String
  | .bool b => if b then "true" else "false"
  | .int i => toString i
  | .double q => formatRat 17 q
  | .string s => s
  | .byteArray s => s
  | _ => ""

/-- Modelled from the spec: Qt's `QVariant::toInt` coercion. -/
def Variant.toInt : Variant → Int
  | .bool b => if b then 1 else 0
  | .int i => i
  | .double q => q.num / (q.den : Int)
  | .string s =>
    match parseNumber s.toList with
    | some (v, []) => v.num / (v.den : Int)
    | _ => 0
  | _ => 0

/-- Modelled from the spec: Qt's `QVariant::toDouble` coercion. -/
def Variant.toDouble : Variant → ℚ
  | .bool b => if b then 1 else 0
  | .int i => (i : ℚ)
  | .double q => q
  | .string s =>
    match parseNumber s.toList with
    | some (v, []) => v
    | _ => 0
  | _ => 0

/-- Modelled from the spec: Qt's `QVariant::toStringList` coercion. -/
def Variant.toTextList : Variant → List String
  | .stringList l => l
  | .string s => [s]
  | _ => []

/-- Modelled from the spec: Qt's `QVariant::toDateTime` coercion (an
`Int` timestamp models a `QDateTime`, `0` the invalid one). -/
def Variant.toDateTime : Variant → Int
  | .dateTime t => t
  | _ => 0

/-- The value-conversion engine (`PropertyValueConversion`): its only
state is the numeric precision used when formatting quantity values. -/
structure PropertyValueConversion where
  doubleToStringPrecision : Nat
deriving DecidableEq, Repr

/-- `PropertyValueConversion::toVariant` (property_value_conversion.cpp,
lines 52-116): dispatch on the property kind; unsupported kinds
(check-state, point, transform) produce the invalid variant together
with a `qCritical` diagnostic, returned here as the second component. -/
def PropertyValueConversion.toVariant (conv : PropertyValueConversion) (prop : Property) :
    Variant × List String :=
  match prop.value with
  | .bool b => (.bool b, [])
  | .int i => (.int i, [])
  | .double q => (.double q, [])
  | .checkState _ => (.none, ["toVariant() not yet implemented for PropertyCheckState"])
  | .byteArray s => (.byteArray s, [])
  | .string s => (.string s, [])
  | .stringList l => (.stringList l, [])
  | .dateTime t => (.dateTime t, [])
  | .occPnt _ _ _ => (.none, ["toVariant() not yet implemented for PropertyOccPnt"])
  | .occTrsf => (.none, ["toVariant() not yet implemented for PropertyOccTrsf"])
  | .occColor r g b => (.string (colorToHex r g b), [])
  | .enumeration items v => (.string (enumName items v), [])
  | .quantity v u =>
    let (factor, sym) := translateSI u
    (.string (formatRat conv.doubleToStringPrecision (v * factor) ++ sym), [])

/-- `PropertyValueConversion::fromVariant` (property_value_conversion.cpp,
lines 118-188): null pointer is a no-op failure; every validation
failure (unsupported kind, non-hexadecimal color text, unknown
enumeration symbol, unparsable quantity text, unit mismatch) returns
`false` with the property unchanged; otherwise the typed `setValue` is
invoked with the coerced variant. -/
def fromVariant : Option Property → Variant → Bool × Option Property
  | Option.none, _ => (false, Option.none)
  | some prop, variant =>
    let wrap : Bool × Property → Bool × Option Property := fun r => (r.1, some r.2)
    match prop.value with
    | .bool _ => wrap (prop.setValue (.bool variant.toBool))
    | .int _ => wrap (prop.setValue (.int variant.toInt))
    | .double _ => wrap (prop.setValue (.double variant.toDouble))
    | .checkState _ => (false, some prop)
    | .byteArray _ => wrap (prop.setValue (.byteArray variant.toText))
    | .string _ => wrap (prop.setValue (.string variant.toText))
    | .stringList _ => wrap (prop.setValue (.stringList variant.toTextList))
    | .dateTime _ => wrap (prop.setValue (.dateTime variant.toDateTime))
    | .occPnt _ _ _ => (false, some prop)
    | .occTrsf => (false, some prop)
    | .occColor _ _ _ =>
      match colorFromHex variant.toText with
      | Option.none => (false, some prop)
      | some (r, g, b) => wrap (prop.setValue (.occColor r g b))
    | .enumeration items _ =>
      match findItem items variant.toText with
      | Option.none => (false, some prop)
      | some it => wrap (prop.setValue (.enumeration items it.2))
    | .quantity _ pu =>
      let (trRes, unit) := parseQuantity variant.toText
      if trRes.strUnit.isNone || fuzzyIsNull trRes.factor then (false, some prop)
      else if unit ≠ Unit'.noUnit ∧ unit ≠ pu then (false, some prop)
      else wrap (prop.setValue (.quantity (trRes.value * trRes.factor) pu))

/-! ## Settings registry (`settings.cpp`)

The registry state is the tree of groups, sections and settings plus the
registered reset functions.  Properties live behind pointers in C++; the
embedding gives each property a numeric id and keeps the pointed-to
records in a `Heap`.  The external `QSettings` store is an association
list from slash-joined paths to variants. -/

/-- A setting is a non-owning reference to one property
(`Settings_Setting`); the `Nat` is the pointer id into the heap. -/
structure Settings_Setting where
  property : Nat
deriving DecidableEq, Repr

/-- `Settings_Section`: identifier (unique among siblings by intent),
optional overridden title, default-section marker, ordered settings. -/
structure Settings_Section where
  identifier : TextId
  overridenTitle : String
  isDefault : Bool
  vecSetting : List Settings_Setting
deriving DecidableEq, Repr

/-- `Settings_Group`: identifier (unique in the registry), optional
overridden title, ordered sections. -/
structure Settings_Group where
  identifier : TextId
  overridenTitle : String
  vecSection : List Settings_Section
deriving DecidableEq, Repr

/-- Positional handle to a group (`Settings::GroupIndex`). -/
structure GroupIndex where
  get : Nat
deriving DecidableEq, Repr

/-- Positional handle to a section inside a group
(`Settings::SectionIndex`). -/
structure SectionIndex where
  group : GroupIndex
  get : Nat
deriving DecidableEq, Repr

/-- Positional handle to a setting inside a section
(`Settings::SettingIndex`). -/
structure SettingIndex where
  section' : SectionIndex
  get : Nat
deriving DecidableEq, Repr

/-- A registered reset function (`SectionResetFunction`): the section it
is bound to and a token standing for the `std::function` callback. -/
structure SectionResetFunction where
  sectionId : SectionIndex
  fnReset : Nat
deriving DecidableEq, Repr

/-- The mutable state of a `Settings` object: the group tree and the
registered reset functions (`Settings::Private`). -/
structure SettingsState where
  vecGroup : List Settings_Group
  vecSectionResetFn : List SectionResetFunction
deriving DecidableEq, Repr

/-- The empty registry (fresh `Settings` object). -/
def emptySettings : SettingsState :=
  ⟨[], []⟩

/-- The heap of property records, keyed by pointer id. -/
abbrev Heap := List (Nat × Property)

/-- Dereference a property pointer. -/
def heapGet : Heap → Nat → Option Property
  | [], _ => Option.none
  | (k, p) :: rest, n => if k = n then some p else heapGet rest n

/-- Overwrite a property record in place (mutation through the
pointer). -/
def heapSet : Heap → Nat → Property → Heap
  | [], _, _ => []
  | (k, p) :: rest, n, q => if k = n then (k, q) :: rest else (k, p) :: heapSet rest n q

/-- The external key-value store (`QSettings`) as path/variant pairs. -/
abbrev Store := List (String × Variant)

/-- `QSettings::contains`. -/
def storeContains (s : Store) (k : String) : Bool :=
  s.any (fun e => e.1 = k)

/-- `QSettings::value` (invalid variant when the path is absent). -/
def storeValue : Store → String → Variant
  | [], _ => Variant.none
  | (k', v) :: rest, k => if k' = k then v else storeValue rest k

/-- `QSettings::setValue`. -/
def storeSet : Store → String → Variant → Store
  | [], k, v => [(k, v)]
  | (k', v') :: rest, k, v =>
    if k' = k then (k, v) :: rest else (k', v') :: storeSet rest k v

/-- `isValidIdentifier` (settings.cpp, lines 39-42): non-empty and not
whitespace-only (`QByteArray::simplified` of a whitespace-only array is
empty). -/
def isValidIdentifier (identifier : String) : Bool :=
  !identifier.isEmpty && identifier.toList.any (fun c => !c.isWhitespace)

/-- Replace the element at a position, leaving the list unchanged when
the position is out of range. -/
def listModify (f : α → α) : Nat → List α → List α
  | _, [] => []
  | 0, a :: as => f a :: as
  | n + 1, a :: as => a :: listModify f n as

/-- The group record a `GroupIndex` designates (`Private::group`;
`none` models the out-of-range `std::vector::at` failure). -/
def SettingsState.groupAt (st : SettingsState) (gi : GroupIndex) : Option Settings_Group :=
  st.vecGroup.get? gi.get

/-- The section record a `SectionIndex` designates (`Private::section`). -/
def SettingsState.sectionAt (st : SettingsState) (si : SectionIndex) : Option Settings_Section :=
  (st.groupAt si.group).bind (fun g => g.vecSection.get? si.get)

/-- Apply an update to the group a `GroupIndex` designates. -/
def updateGroup (st : SettingsState) (gi : GroupIndex) (f : Settings_Group → Settings_Group) :
    SettingsState :=
  { st with vecGroup := listModify f gi.get st.vecGroup }

/-- Apply an update to the section a `SectionIndex` designates. -/
def updateSection (st : SettingsState) (si : SectionIndex)
    (f : Settings_Section → Settings_Section) : SettingsState :=
  updateGroup st si.group (fun g => { g with vecSection := listModify f si.get g.vecSection })

/-- Position of the first group carrying the identifier key (the linear
scan of `Settings::addGroup`, lines 202-205). -/
def findGroupIdx : List Settings_Group → String → Option Nat
  | [], _ => Option.none
  | g :: rest, identifier =>
    if g.identifier.key = identifier then some 0
    else (findGroupIdx rest identifier).map (· + 1)

/-- The implicit default section pushed by `addGroup` (value-initialised
record with `isDefault` set to `true`, empty identifier). -/
def defaultSection : Settings_Section :=
  ⟨⟨"", ""⟩, "", true, []⟩

/-- The group record `addGroup` creates for a fresh identifier. -/
def mkGroup (identifier : String) : Settings_Group :=
  ⟨⟨"", identifier⟩, "", [defaultSection]⟩

/-- `Settings::addGroup(QByteArray)` (settings.cpp, lines 198-216):
return the index of an existing group with the same identifier key,
else append a new group holding one implicit default section.  The
`Expects(isValidIdentifier)` contract is carried as a hypothesis by the
theorems. -/
def addGroup (st : SettingsState) (identifier : String) : SettingsState × GroupIndex :=
  match findGroupIdx st.vecGroup identifier with
  | some i => (st, ⟨i⟩)
  | Option.none =>
    ({ st with vecGroup := st.vecGroup ++ [mkGroup identifier] }, ⟨st.vecGroup.length⟩)

/-- `Settings::addSection(GroupIndex, QByteArray)` (settings.cpp, lines
266-276): append a section with the given identifier key.  The source
carries a `TODO Check identifier is unique` — no uniqueness check is
performed. -/
def addSection (st : SettingsState) (gi : GroupIndex) (identifier : String) :
    SettingsState × SectionIndex :=
  let st' := updateGroup st gi (fun g =>
    { g with vecSection := g.vecSection ++ [⟨⟨"", identifier⟩, "", false, []⟩] })
  (st', ⟨gi, ((st.groupAt gi).map (fun g => g.vecSection.length)).getD 0⟩)

/-- `Settings::addSection(GroupIndex, TextId)` (settings.cpp, lines
259-264): add by key, then overwrite the stored identifier with the
full `TextId`. -/
def addSectionTextId (st : SettingsState) (gi : GroupIndex) (identifier : TextId) :
    SettingsState × SectionIndex :=
  let (st1, si) := addSection st gi identifier.key
  (updateSection st1 si (fun s => { s with identifier := identifier }), si)

/-- `Settings::addSetting(Property*, SectionIndex)` (settings.cpp, lines
336-344): append the property reference to the section. -/
def addSetting (st : SettingsState) (p : Nat) (si : SectionIndex) :
    SettingsState × SettingIndex :=
  let st' := updateSection st si (fun s => { s with vecSetting := s.vecSetting ++ [⟨p⟩] })
  (st', ⟨si, ((st.sectionAt si).map (fun s => s.vecSetting.length)).getD 0⟩)

/-- `Settings::addSetting(Property*, GroupIndex)` (settings.cpp, lines
311-334): locate or create the group's default section — the first
section when it is marked default, a fresh section inserted at the
front otherwise, or (for a group with no sections at all, unreachable
through `addGroup`) a section identified `DEFAULT` — force its
`isDefault` flag, and append the setting there. -/
def addSettingToGroup (st : SettingsState) (p : Nat) (gi : GroupIndex) :
    SettingsState × SettingIndex :=
  match st.groupAt gi with
  | Option.none => (st, ⟨⟨gi, 0⟩, 0⟩)
  | some g =>
    let st1 :=
      if g.vecSection.isEmpty then
        (addSectionTextId st gi ⟨"Mayo::Settings", "DEFAULT"⟩).1
      else if (g.vecSection.head?.map (fun s => s.isDefault)).getD false then
        st
      else
        updateGroup st gi (fun g' =>
          { g' with vecSection := ⟨⟨"", ""⟩, "", false, []⟩ :: g'.vecSection })
    let st2 := updateSection st1 ⟨gi, 0⟩ (fun s => { s with isDefault := true })
    addSetting st2 p ⟨gi, 0⟩

/-- `Settings::addResetFunction(SectionIndex, ResetFunction)`
(settings.cpp, lines 228-236): record the binding, ignoring a null
callback (`none`). -/
def addResetFunction (st : SettingsState) (si : SectionIndex) (fn : Option Nat) :
    SettingsState :=
  match fn with
  | Option.none => st
  | some f => { st with vecSectionResetFn := st.vecSectionResetFn ++ [⟨si, f⟩] }

/-- `Settings::addResetFunction(GroupIndex, ResetFunction)`
(settings.cpp, lines 223-226): bind to section 0 of the group. -/
def addResetFunctionGroup (st : SettingsState) (gi : GroupIndex) (fn : Option Nat) :
    SettingsState :=
  addResetFunction st ⟨gi, 0⟩ fn

/-- `Settings::resetAll` (settings.cpp, lines 346-350): the callbacks
invoked, in registration order. -/
def resetAllList : List SectionResetFunction → List Nat
  | [] => []
  | e :: rest => e.fnReset :: resetAllList rest

/-- `Settings::resetGroup` (settings.cpp, lines 352-358): the callbacks
whose bound section lies under the group, in registration order. -/
def resetGroupList : List SectionResetFunction → GroupIndex → List Nat
  | [], _ => []
  | e :: rest, gi =>
    if e.sectionId.group = gi then e.fnReset :: resetGroupList rest gi
    else resetGroupList rest gi

/-- `Settings::resetSection` (settings.cpp, lines 360-366). -/
def resetSectionList : List SectionResetFunction → SectionIndex → List Nat
  | [], _ => []
  | e :: rest, si =>
    if e.sectionId = si then e.fnReset :: resetSectionList rest si
    else resetSectionList rest si

/-- `resetAll` on a registry state. -/
def resetAll (st : SettingsState) : List Nat :=
  resetAllList st.vecSectionResetFn

/-- `resetGroup` on a registry state. -/
def resetGroup (st : SettingsState) (gi : GroupIndex) : List Nat :=
  resetGroupList st.vecSectionResetFn gi

/-- `Private::sectionPath` (settings.cpp, lines 62-64): slash-joined
group and section identifier keys. -/
def sectionPath (group : Settings_Group) (section' : Settings_Section) : String :=
  group.identifier.key ++ "/" ++ section'.identifier.key

/-- The exclusion test of `loadFrom`/`saveAs`:
`!fnExclude || !fnExclude(*prop)` negated — `true` when a non-null
predicate matches the property. -/
def excludedBy (ex : Option (Property → Bool)) (prop : Property) : Bool :=
  match ex with
  | Option.none => false
  | some f => f prop

/-- Inner loop of `Settings::saveAs` over one section's settings
(settings.cpp, lines 153-160): for every setting whose property does
not match the exclude predicate, emit a write of the converted variant
at `sectionPath/propertyKey`, collecting conversion diagnostics.  A
setting whose pointer does not dereference is skipped (a null pointer
there would be undefined behaviour in the source). -/
def saveSettingList (conv : PropertyValueConversion) (heap : Heap)
    (ex : Option (Property → Bool)) (secPath : String) :
    List Settings_Setting → List (String × Variant) × List String
  | [] => ([], [])
  | s :: rest =>
    let tailRes := saveSettingList conv heap ex secPath rest
    match heapGet heap s.property with
    | Option.none => tailRes
    | some prop =>
      if excludedBy ex prop then tailRes
      else
        let (v, logs) := conv.toVariant prop
        ((secPath ++ "/" ++ prop.name.key, v) :: tailRes.1, logs ++ tailRes.2)

/-- Middle loop of `Settings::saveAs` over one group's sections. -/
def saveSectionList (conv : PropertyValueConversion) (heap : Heap)
    (ex : Option (Property → Bool)) (group : Settings_Group) :
    List Settings_Section → List (String × Variant) × List String
  | [] => ([], [])
  | sec :: rest =>
    let here := saveSettingList conv heap ex (sectionPath group sec) sec.vecSetting
    let tailRes := saveSectionList conv heap ex group rest
    (here.1 ++ tailRes.1, here.2 ++ tailRes.2)

/-- Outer loop of `Settings::saveAs` over the groups. -/
def saveGroupList (conv : PropertyValueConversion) (heap : Heap)
    (ex : Option (Property → Bool)) :
    List Settings_Group → List (String × Variant) × List String
  | [] => ([], [])
  | g :: rest =>
    let here := saveSectionList conv heap ex g g.vecSection
    let tailRes := saveGroupList conv heap ex rest
    (here.1 ++ tailRes.1, here.2 ++ tailRes.2)

/-- The ordered list of store writes (and diagnostics) a `saveAs` pass
performs over a registry. -/
def saveAsWrites (conv : PropertyValueConversion) (st : SettingsState) (heap : Heap)
    (ex : Option (Property → Bool)) : List (String × Variant) × List String :=
  saveGroupList conv heap ex st.vecGroup

/-- Apply a write list to a store, in order. -/
def applyWrites : Store → List (String × Variant) → Store
  | store, [] => store
  | store, (k, v) :: rest => applyWrites (storeSet store k v) rest

/-- `Settings::saveAs(QSettings*, ExcludePropertyPredicate)`
(settings.cpp, lines 145-163): a null target returns immediately with
no writes and no conversions; otherwise every non-excluded setting's
converted variant is written at its three-segment path.  Returns the
resulting store (when a target exists), the writes performed and the
diagnostics emitted. -/
def saveAs (conv : PropertyValueConversion) (st : SettingsState) (heap : Heap)
    (ex : Option (Property → Bool)) (target : Option Store) :
    Option Store × List (String × Variant) × List String :=
  match target with
  | Option.none => (Option.none, [], [])
  | some store =>
    let (writes, logs) := saveAsWrites conv st heap ex
    (some (applyWrites store writes), writes, logs)

/-- `Private::loadPropertyFrom` (settings.cpp, lines 70-81): when the
store contains `sectionPath/propertyKey`, run `fromVariant` on the
property — the heap records the mutated property, and the boolean
result is discarded exactly as in the source. -/
def loadPropertyFrom (source : Store) (secPath : String) (heap : Heap) (pid : Nat) : Heap :=
  match heapGet heap pid with
  | Option.none => heap
  | some prop =>
    let settingPath := secPath ++ "/" ++ prop.name.key
    if storeContains source settingPath then
      match fromVariant (some prop) (storeValue source settingPath) with
      | (_, some prop') => heapSet heap pid prop'
      | (_, Option.none) => heap
    else heap

/-- Inner loop of `Settings::loadFrom` over one section's settings
(settings.cpp, lines 112-115): settings whose property matches the
exclude predicate are skipped; the rest are loaded in order, each
seeing the heap as left by its predecessors. -/
def loadSettingList (source : Store) (ex : Option (Property → Bool)) (secPath : String)
    (heap : Heap) : List Settings_Setting → Heap
  | [] => heap
  | s :: rest =>
    let heap' :=
      match heapGet heap s.property with
      | Option.none => heap
      | some prop =>
        if excludedBy ex prop then heap
        else loadPropertyFrom source secPath heap s.property
    loadSettingList source ex secPath heap' rest

/-- Middle loop of `Settings::loadFrom` over one group's sections. -/
def loadSectionList (source : Store) (ex : Option (Property → Bool))
    (group : Settings_Group) (heap : Heap) : List Settings_Section → Heap
  | [] => heap
  | sec :: rest =>
    loadSectionList source ex group
      (loadSettingList source ex (sectionPath group sec) heap sec.vecSetting) rest

/-- Outer loop of `Settings::loadFrom` over the groups. -/
def loadGroupList (source : Store) (ex : Option (Property → Bool)) (heap : Heap) :
    List Settings_Group → Heap
  | [] => heap
  | g :: rest => loadGroupList source ex (loadSectionList source ex g heap g.vecSection) rest

/-- `Settings::loadFrom(QSettings, ExcludePropertyPredicate)`
(settings.cpp, lines 107-118): the heap after the load pass. -/
def loadFrom (st : SettingsState) (heap : Heap) (source : Store)
    (ex : Option (Property → Bool)) : Heap :=
  loadGroupList source ex heap st.vecGroup

/-! ## Lemmas and claim theorems -/

/-- A failing `setValue` leaves the property unchanged. -/
theorem setValue_false_eq (prop : Property) (v : PropValue)
    (h : (prop.setValue v).1 = false) : (prop.setValue v).2 = prop := by
  by_cases hc : (prop.value.kindEq v && checkConstraint prop.constraint v) = true
  · simp [Property.setValue, hc] at h
  · simp [Property.setValue, hc]

/-- `fromVariant` on a non-null property either fails with the property
unchanged, or hands some coerced value to the property's `setValue`. -/
theorem fromVariant_some_cases (prop : Property) (v : Variant) :
    fromVariant (some prop) v = (false, some prop) ∨
    ∃ w : PropValue,
      fromVariant (some prop) v = ((prop.setValue w).1, some (prop.setValue w).2) := by
  obtain ⟨n, val, c⟩ := prop
  cases val with
  | bool b => exact Or.inr ⟨_, rfl⟩
  | int i => exact Or.inr ⟨_, rfl⟩
  | double q => exact Or.inr ⟨_, rfl⟩
  | checkState cs => exact Or.inl rfl
  | byteArray s => exact Or.inr ⟨_, rfl⟩
  | string s => exact Or.inr ⟨_, rfl⟩
  | stringList l => exact Or.inr ⟨_, rfl⟩
  | dateTime t => exact Or.inr ⟨_, rfl⟩
  | occPnt x y z => exact Or.inl rfl
  | occTrsf => exact Or.inl rfl
  | occColor r g b =>
    rcases hc : colorFromHex v.toText with _ | ⟨cr, cg, cb⟩
    · exact Or.inl (by simp [fromVariant, hc])
    · exact Or.inr ⟨PropValue.occColor cr cg cb, by simp [fromVariant, hc]⟩
  | enumeration items d =>
    rcases hi : findItem items v.toText with _ | it
    · exact Or.inl (by simp [fromVariant, hi])
    · exact Or.inr ⟨PropValue.enumeration items it.2, by simp [fromVariant, hi]⟩
  | quantity q u =>
    rcases hp : parseQuantity v.toText with ⟨tr, pu⟩
    by_cases h1 : (tr.strUnit.isNone || fuzzyIsNull tr.factor) = true
    · exact Or.inl (by simp [fromVariant, hp, h1])
    · by_cases h2 : pu ≠ Unit'.noUnit ∧ pu ≠ u
      · exact Or.inl (by simp [fromVariant, hp, h1, h2])
      · exact Or.inr ⟨PropValue.quantity (tr.value * tr.factor) u,
          by simp [fromVariant, hp, h1, h2]⟩

/-- C1: `fromVariant` performs no partial writes — whenever it returns
`false` the target property is left exactly as it was, so a property's
value can change only when the whole conversion returns `true`; in
particular a null property pointer, an enumeration symbol absent from the
property's enumeration, a non-hexadecimal color text, and an unparsable
quantity text each make it return `false` with the target property
unchanged. -/
theorem fromVariant_no_partial_writes :
    (∀ (p : Option Property) (v : Variant),
      (fromVariant p v).1 = false → (fromVariant p v).2 = p)
    ∧ (∀ v : Variant, fromVariant Option.none v = (false, Option.none))
    ∧ (∀ (prop : Property) (items : List (String × Int)) (d : Int) (v : Variant),
        prop.value = PropValue.enumeration items d →
        findItem items v.toText = Option.none →
        fromVariant (some prop) v = (false, some prop))
    ∧ (∀ (prop : Property) (r g b : Nat) (v : Variant),
        prop.value = PropValue.occColor r g b →
        colorFromHex v.toText = Option.none →
        fromVariant (some prop) v = (false, some prop))
    ∧ (∀ (prop : Property) (q : ℚ) (u : Unit') (v : Variant),
        prop.value = PropValue.quantity q u →
        ((parseQuantity v.toText).1.strUnit = Option.none ∨
          fuzzyIsNull (parseQuantity v.toText).1.factor = true) →
        fromVariant (some prop) v = (false, some prop)) := by
  refine ⟨?_, fun _ => rfl, ?_, ?_, ?_⟩
  · intro p v h
    match p with
    | Option.none => rfl
    | some prop =>
      rcases fromVariant_some_cases prop v with hcase | ⟨w, hcase⟩
      · rw [hcase]
      · rw [hcase] at h ⊢
        exact congrArg some (setValue_false_eq _ _ h)
  · intro prop items d v hval hfind
    obtain ⟨n, val, c⟩ := prop
    cases hval
    simp [fromVariant, hfind]
  · intro prop r g b v hval hhex
    obtain ⟨n, val, c⟩ := prop
    cases hval
    simp [fromVariant, hhex]
  · intro prop q u v hval hparse
    obtain ⟨n, val, c⟩ := prop
    cases hval
    rcases hp : parseQuantity v.toText with ⟨tr, pu⟩
    rw [hp] at hparse
    have h1 : (tr.strUnit.isNone || fuzzyIsNull tr.factor) = true := by
      rcases hparse with h | h
      · have h' : tr.strUnit = Option.none := h
        simp [h']
      · have h' : fuzzyIsNull tr.factor = true := h
        simp [h']
    simp [fromVariant, hp, h1]

/-- Witness for C1 at concrete inputs: a null pointer, an unknown
enumeration symbol, a non-hexadecimal color text and an unparsable
quantity text each fail without touching the property. -/
theorem fromVariant_no_partial_writes_witness :
    fromVariant Option.none (Variant.bool true) = (false, Option.none)
    ∧ fromVariant
        (some ⟨⟨"", "e"⟩, PropValue.enumeration [("a", 0), ("b", 1)] 0, Constraint.free⟩)
        (Variant.string "zzz")
      = (false, some ⟨⟨"", "e"⟩, PropValue.enumeration [("a", 0), ("b", 1)] 0, Constraint.free⟩)
    ∧ fromVariant
        (some ⟨⟨"", "c"⟩, PropValue.occColor 1 2 3, Constraint.free⟩)
        (Variant.string "red")
      = (false, some ⟨⟨"", "c"⟩, PropValue.occColor 1 2 3, Constraint.free⟩)
    ∧ fromVariant
        (some ⟨⟨"", "q"⟩, PropValue.quantity 0 Unit'.length, Constraint.free⟩)
        (Variant.string "xyz")
      = (false, some ⟨⟨"", "q"⟩, PropValue.quantity 0 Unit'.length, Constraint.free⟩) :=
  ⟨fromVariant_no_partial_writes.2.1 _,
   fromVariant_no_partial_writes.2.2.1 _ _ 0 _ rfl (by decide),
   fromVariant_no_partial_writes.2.2.2.1 _ 1 2 3 _ rfl (by decide),
   fromVariant_no_partial_writes.2.2.2.2 _ 0 Unit'.length _ rfl (Or.inl (by decide))⟩

/-- C3: on a quantity property, a variant whose text parses to a quantity
carrying a unit symbol that is present and differs from the property's
declared unit is rejected — `fromVariant` returns `false` and the
property keeps its prior value (strict unit-mismatch rejection). -/
theorem fromVariant_unit_mismatch_rejected (prop : Property) (q0 : ℚ) (pu : Unit')
    (v : Variant) (hval : prop.value = PropValue.quantity q0 pu)
    (hsym : (parseQuantity v.toText).1.strUnit ≠ Option.none)
    (hfac : fuzzyIsNull (parseQuantity v.toText).1.factor = false)
    (hpresent : (parseQuantity v.toText).2 ≠ Unit'.noUnit)
    (hmis : (parseQuantity v.toText).2 ≠ pu) :
    fromVariant (some prop) v = (false, some prop) := by
  obtain ⟨n, val, c⟩ := prop
  cases hval
  rcases hp : parseQuantity v.toText with ⟨tr, u⟩
  rw [hp] at hsym hfac hpresent hmis
  have hsym' : tr.strUnit ≠ Option.none := hsym
  have hfac' : fuzzyIsNull tr.factor = false := hfac
  have hpresent' : u ≠ Unit'.noUnit := hpresent
  have hmis' : u ≠ pu := hmis
  rcases hs : tr.strUnit with _ | s
  · exact absurd hs hsym'
  · simp [fromVariant, hp, hs, hfac', hpresent', hmis']

/-- Witness for C3: a length-quantity property of 25.4 mm given the
angle-unit text `1.5rad` is rejected unchanged. -/
theorem fromVariant_unit_mismatch_rejected_witness :
    fromVariant
        (some ⟨⟨"", "len"⟩, PropValue.quantity (127 / 5) Unit'.length, Constraint.free⟩)
        (Variant.string "1.5rad")
      = (false, some ⟨⟨"", "len"⟩, PropValue.quantity (127 / 5) Unit'.length, Constraint.free⟩) :=
  fromVariant_unit_mismatch_rejected _ (127 / 5) Unit'.length _ rfl
    (by decide) (by decide) (by decide) (by decide)

/-- C10: `saveAs` with a null store target is a silent no-op for every
registry state, property heap and exclude predicate — no store results,
no write is performed and no conversion diagnostic is emitted. -/
theorem saveAs_null_target_noop (conv : PropertyValueConversion) (st : SettingsState)
    (heap : Heap) (ex : Option (Property → Bool)) :
    saveAs conv st heap ex Option.none = (Option.none, [], []) :=
  rfl

/-- Looking up the freshly appended element. -/
theorem get?_append_length (l : List α) (a : α) : (l ++ [a]).get? l.length = some a := by
  induction l with
  | nil => rfl
  | cons x xs ih => exact ih

/-- A group identifier that is absent stays absent until the matching
group is appended, which then sits at the old length. -/
theorem findGroupIdx_append_fresh (l : List Settings_Group) (g : String)
    (h : findGroupIdx l g = Option.none) :
    findGroupIdx (l ++ [mkGroup g]) g = some l.length := by
  induction l with
  | nil => simp [findGroupIdx, mkGroup]
  | cons a rest ih =>
    by_cases ha : a.identifier.key = g
    · simp [findGroupIdx, ha] at h
    · have hrest : findGroupIdx rest g = Option.none := by
        cases hr : findGroupIdx rest g
        · rfl
        · simp [findGroupIdx, ha, hr] at h
      simp [findGroupIdx, ha, ih hrest]

/-- C2: `addGroup` is idempotent by identifier — a second `addGroup` with
the same identifier returns the same `GroupIndex` and leaves the registry
unchanged; when a group with the identifier already exists its index is
returned and nothing is created, otherwise the new group is appended
carrying exactly one implicit default section. -/
theorem addGroup_idempotent (st : SettingsState) (g : String)
    (_hvalid : isValidIdentifier g = true) :
    addGroup (addGroup st g).1 g = addGroup st g
    ∧ (∀ i, findGroupIdx st.vecGroup g = some i → addGroup st g = (st, ⟨i⟩))
    ∧ (findGroupIdx st.vecGroup g = Option.none →
        (addGroup st g).1.vecGroup = st.vecGroup ++ [mkGroup g]
        ∧ (addGroup st g).2 = ⟨st.vecGroup.length⟩
        ∧ (mkGroup g).identifier.key = g
        ∧ (mkGroup g).vecSection = [defaultSection]
        ∧ defaultSection.isDefault = true) := by
  cases hf : findGroupIdx st.vecGroup g with
  | some i =>
    have h1 : addGroup st g = (st, ⟨i⟩) := by simp [addGroup, hf]
    refine ⟨?_, ?_, ?_⟩
    · rw [h1]
      exact h1
    · intro j hj
      injection hj with hij
      subst hij
      exact h1
    · intro h0
      exact absurd h0 (by simp)
  | none =>
    have h1 : addGroup st g =
        ({ st with vecGroup := st.vecGroup ++ [mkGroup g] }, ⟨st.vecGroup.length⟩) := by
      simp [addGroup, hf]
    have h2 := findGroupIdx_append_fresh st.vecGroup g hf
    refine ⟨?_, ?_, ?_⟩
    · rw [h1]
      simp [addGroup, h2]
    · intro j hj
      exact Option.noConfusion hj
    · intro _
      rw [h1]
      exact ⟨rfl, rfl, rfl, rfl, rfl⟩

/-- Witness for C2: registering the group `export` twice on a fresh
registry yields the same index and state. -/
theorem addGroup_idempotent_witness :
    isValidIdentifier "export" = true
    ∧ addGroup (addGroup emptySettings "export").1 "export" = addGroup emptySettings "export" :=
  ⟨by decide, (addGroup_idempotent emptySettings "export" (by decide)).1⟩

/-- `listModify` at the modified position. -/
theorem listModify_get?_same (f : α → α) (n : Nat) (l : List α) :
    (listModify f n l).get? n = (l.get? n).map f := by
  induction l generalizing n with
  | nil => cases n <;> rfl
  | cons x xs ih =>
    cases n with
    | zero => rfl
    | succ m => simpa [listModify] using ih m

/-- `updateGroup` seen through `groupAt` at the same index. -/
theorem updateGroup_groupAt (st : SettingsState) (gi : GroupIndex)
    (f : Settings_Group → Settings_Group) :
    (updateGroup st gi f).groupAt gi = (st.groupAt gi).map f :=
  listModify_get?_same f gi.get st.vecGroup

/-- `updateSection` seen through `sectionAt` at the same index. -/
theorem updateSection_sectionAt (st : SettingsState) (si : SectionIndex)
    (f : Settings_Section → Settings_Section) :
    (updateSection st si f).sectionAt si = (st.sectionAt si).map f := by
  show ((updateGroup st si.group _).groupAt si.group).bind (fun g => g.vecSection.get? si.get)
      = Option.map f ((st.groupAt si.group).bind (fun g => g.vecSection.get? si.get))
  rw [updateGroup_groupAt]
  cases st.groupAt si.group with
  | none => rfl
  | some gr => exact listModify_get?_same f si.get gr.vecSection

/-- The two trailing steps of `addSetting(Property*, GroupIndex)` (force
the `isDefault` flag, then append the setting) keep section 0 present
and default. -/
theorem sectionAt_after_force_and_append (st1 : SettingsState) (gi : GroupIndex) (p : Nat)
    (s₀ : Settings_Section) (h : st1.sectionAt ⟨gi, 0⟩ = some s₀) :
    ∃ sec,
      (addSetting (updateSection st1 ⟨gi, 0⟩ (fun s => { s with isDefault := true })) p
          ⟨gi, 0⟩).1.sectionAt ⟨gi, 0⟩ = some sec
      ∧ sec.isDefault = true := by
  have e1 : (updateSection st1 ⟨gi, 0⟩ (fun s => { s with isDefault := true })).sectionAt ⟨gi, 0⟩
      = some { s₀ with isDefault := true } := by
    rw [updateSection_sectionAt, h]
    rfl
  have e2 : (addSetting (updateSection st1 ⟨gi, 0⟩ (fun s => { s with isDefault := true })) p
      ⟨gi, 0⟩).1.sectionAt ⟨gi, 0⟩
      = some { s₀ with isDefault := true, vecSetting := s₀.vecSetting ++ [⟨p⟩] } := by
    show (updateSection _ ⟨gi, 0⟩ _).sectionAt ⟨gi, 0⟩ = _
    rw [updateSection_sectionAt, e1]
    rfl
  exact ⟨_, e2, rfl⟩

/-- Branch of `addSetting(Property*, GroupIndex)` for a group with no
sections (unreachable through `addGroup`): a `DEFAULT` section is
created first. -/
theorem addSettingToGroup_empty (st : SettingsState) (p : Nat) (gi : GroupIndex)
    (gr : Settings_Group) (hgr : st.groupAt gi = some gr) (hsec : gr.vecSection = []) :
    addSettingToGroup st p gi =
      addSetting
        (updateSection (addSectionTextId st gi ⟨"Mayo::Settings", "DEFAULT"⟩).1 ⟨gi, 0⟩
          (fun s => { s with isDefault := true })) p ⟨gi, 0⟩ := by
  obtain ⟨gid, gtitle, gsec⟩ := gr
  cases hsec
  unfold addSettingToGroup
  rw [hgr]
  rfl

/-- Branch of `addSetting(Property*, GroupIndex)` when the first section
is already marked default: settings land in it. -/
theorem addSettingToGroup_front_default (st : SettingsState) (p : Nat) (gi : GroupIndex)
    (gr : Settings_Group) (s0 : Settings_Section) (srest : List Settings_Section)
    (hgr : st.groupAt gi = some gr) (hsec : gr.vecSection = s0 :: srest)
    (hdef : s0.isDefault = true) :
    addSettingToGroup st p gi =
      addSetting (updateSection st ⟨gi, 0⟩ (fun s => { s with isDefault := true })) p
        ⟨gi, 0⟩ := by
  obtain ⟨gid, gtitle, gsec⟩ := gr
  cases hsec
  unfold addSettingToGroup
  rw [hgr]
  simp [hdef]

/-- Branch of `addSetting(Property*, GroupIndex)` when the first section
is not marked default: a fresh section is inserted at the front. -/
theorem addSettingToGroup_insert_front (st : SettingsState) (p : Nat) (gi : GroupIndex)
    (gr : Settings_Group) (s0 : Settings_Section) (srest : List Settings_Section)
    (hgr : st.groupAt gi = some gr) (hsec : gr.vecSection = s0 :: srest)
    (hdef : s0.isDefault = false) :
    addSettingToGroup st p gi =
      addSetting
        (updateSection
          (updateGroup st gi (fun g' =>
            { g' with vecSection := ⟨⟨"", ""⟩, "", false, []⟩ :: g'.vecSection }))
          ⟨gi, 0⟩ (fun s => { s with isDefault := true })) p ⟨gi, 0⟩ := by
  obtain ⟨gid, gtitle, gsec⟩ := gr
  cases hsec
  unfold addSettingToGroup
  rw [hgr]
  simp [hdef]

/-- `addSectionTextId` unfolded to its two primitive steps. -/
theorem addSectionTextId_state (st : SettingsState) (gi : GroupIndex) (tid : TextId) :
    (addSectionTextId st gi tid).1 =
      updateSection (addSection st gi tid.key).1
        ⟨gi, ((st.groupAt gi).map (fun g => g.vecSection.length)).getD 0⟩
        (fun s => { s with identifier := tid }) :=
  rfl

/-- C6: section 0 of a freshly added group exists and is marked default,
and any `addSetting` targeting a group directly re-establishes that the
group's first section exists and is marked default. -/
theorem group_default_section_invariant :
    (∀ (st : SettingsState) (g : String), isValidIdentifier g = true →
      findGroupIdx st.vecGroup g = Option.none →
      (addGroup st g).1.sectionAt ⟨(addGroup st g).2, 0⟩ = some defaultSection
      ∧ defaultSection.isDefault = true)
    ∧ (∀ (st : SettingsState) (p : Nat) (gi : GroupIndex) (gr : Settings_Group),
        st.groupAt gi = some gr →
        ∃ sec, (addSettingToGroup st p gi).1.sectionAt ⟨gi, 0⟩ = some sec
          ∧ sec.isDefault = true) := by
  constructor
  · intro st g _ hf
    have h1 : addGroup st g =
        ({ st with vecGroup := st.vecGroup ++ [mkGroup g] }, ⟨st.vecGroup.length⟩) := by
      simp [addGroup, hf]
    rw [h1]
    refine ⟨?_, rfl⟩
    show ((st.vecGroup ++ [mkGroup g]).get? st.vecGroup.length).bind _ = _
    rw [get?_append_length]
    rfl
  · intro st p gi gr hgr
    rcases hsec : gr.vecSection with _ | ⟨s0, srest⟩
    · rw [addSettingToGroup_empty st p gi gr hgr hsec]
      refine sectionAt_after_force_and_append _ gi p ⟨⟨"Mayo::Settings", "DEFAULT"⟩, "", false, []⟩ ?_
      rw [addSectionTextId_state]
      have hn : ((st.groupAt gi).map (fun g => g.vecSection.length)).getD 0 = 0 := by
        rw [hgr]
        simp [hsec]
      rw [hn, updateSection_sectionAt]
      have haddsec : (addSection st gi "DEFAULT").1.sectionAt ⟨gi, 0⟩
          = some ⟨⟨"", "DEFAULT"⟩, "", false, []⟩ := by
        show ((updateGroup st gi _).groupAt gi).bind _ = _
        rw [updateGroup_groupAt, hgr]
        simp [hsec]
      rw [haddsec]
      rfl
    · by_cases hdef : s0.isDefault = true
      · rw [addSettingToGroup_front_default st p gi gr s0 srest hgr hsec hdef]
        refine sectionAt_after_force_and_append st gi p s0 ?_
        show (st.groupAt gi).bind _ = _
        rw [hgr]
        show gr.vecSection.get? 0 = some s0
        rw [hsec]
        rfl
      · have hdef' : s0.isDefault = false := by
          cases hb : s0.isDefault
          · rfl
          · exact absurd hb hdef
        rw [addSettingToGroup_insert_front st p gi gr s0 srest hgr hsec hdef']
        refine sectionAt_after_force_and_append _ gi p ⟨⟨"", ""⟩, "", false, []⟩ ?_
        show ((updateGroup st gi _).groupAt gi).bind _ = _
        rw [updateGroup_groupAt, hgr]
        rfl

/-- Witness for C6 on a fresh registry: the group `g` gets a default
first section, preserved by a direct `addSetting`. -/
theorem group_default_section_invariant_witness :
    ((addGroup emptySettings "g").1.sectionAt ⟨(addGroup emptySettings "g").2, 0⟩
        = some defaultSection
      ∧ defaultSection.isDefault = true)
    ∧ ∃ sec,
        (addSettingToGroup (addGroup emptySettings "g").1 7 ⟨0⟩).1.sectionAt ⟨⟨0⟩, 0⟩ = some sec
        ∧ sec.isDefault = true :=
  ⟨group_default_section_invariant.1 emptySettings "g" (by decide) rfl,
   group_default_section_invariant.2 (addGroup emptySettings "g").1 7 ⟨0⟩
     (mkGroup "g") (by decide)⟩

/-- C7 (the code violates it): `addSection` performs no sibling-uniqueness
check — its source carries `TODO Check identifier is unique` — so two
`addSection` calls with the same valid identifier on the same group
create two sibling sections with identical identifiers. -/
theorem addSection_duplicate_identifier_bug :
    isValidIdentifier "s" = true
    ∧ ((addSection (addSection (addGroup emptySettings "g").1 ⟨0⟩ "s").1 ⟨0⟩ "s").1.sectionAt
          ⟨⟨0⟩, 1⟩).map (fun s => s.identifier.key) = some "s"
    ∧ ((addSection (addSection (addGroup emptySettings "g").1 ⟨0⟩ "s").1 ⟨0⟩ "s").1.sectionAt
          ⟨⟨0⟩, 2⟩).map (fun s => s.identifier.key) = some "s" := by
  decide

/-- `resetGroup` over a newly appended registration. -/
theorem resetGroupList_append (l : List SectionResetFunction) (e : SectionResetFunction)
    (gi : GroupIndex) :
    resetGroupList (l ++ [e]) gi =
      resetGroupList l gi ++ (if e.sectionId.group = gi then [e.fnReset] else []) := by
  induction l with
  | nil => by_cases h : e.sectionId.group = gi <;> simp [resetGroupList, h]
  | cons a rest ih =>
    by_cases h : a.sectionId.group = gi <;> simp [resetGroupList, h, ih]

/-- `resetAll` over a newly appended registration. -/
theorem resetAllList_append (l : List SectionResetFunction) (e : SectionResetFunction) :
    resetAllList (l ++ [e]) = resetAllList l ++ [e.fnReset] := by
  induction l with
  | nil => rfl
  | cons a rest ih => simp [resetAllList, ih]

/-- `resetAll` fires the registered callbacks in order. -/
theorem resetAllList_eq_map (l : List SectionResetFunction) :
    resetAllList l = l.map SectionResetFunction.fnReset := by
  induction l with
  | nil => rfl
  | cons a rest ih => simp [resetAllList, ih]

/-- Membership in the callbacks fired by `resetGroup`. -/
theorem mem_resetGroupList (l : List SectionResetFunction) (gi : GroupIndex) (f : Nat) :
    f ∈ resetGroupList l gi ↔ ∃ e ∈ l, e.fnReset = f ∧ e.sectionId.group = gi := by
  induction l with
  | nil => simp [resetGroupList]
  | cons a rest ih =>
    by_cases h : a.sectionId.group = gi
    · simp only [resetGroupList, h, if_true, List.mem_cons, ih]
      constructor
      · rintro (rfl | ⟨e, he, hef, heg⟩)
        · exact ⟨a, Or.inl rfl, rfl, h⟩
        · exact ⟨e, Or.inr he, hef, heg⟩
      · rintro ⟨e, he | he, hef, heg⟩
        · cases he
          exact Or.inl hef.symm
        · exact Or.inr ⟨e, he, hef, heg⟩
    · simp only [resetGroupList, h, if_false, ih]
      constructor
      · rintro ⟨e, he, hef, heg⟩
        exact ⟨e, List.mem_cons_of_mem a he, hef, heg⟩
      · rintro ⟨e, he, hef, heg⟩
        rcases List.mem_cons.mp he with rfl | he'
        · exact absurd heg h
        · exact ⟨e, he', hef, heg⟩

/-- C9: `resetGroup g` invokes exactly the reset functions whose
registration is bound to group `g` — a `GroupIndex` registration binds
to the group's section 0, a `SectionIndex` registration to its own
section — and no function bound to another group; `resetAll` invokes
every registered function. -/
theorem resetGroup_exact :
    (∀ (st : SettingsState) (gi : GroupIndex) (f : Nat),
      f ∈ resetGroup st gi ↔
        ∃ e ∈ st.vecSectionResetFn, e.fnReset = f ∧ e.sectionId.group = gi)
    ∧ (∀ st : SettingsState,
        resetAll st = st.vecSectionResetFn.map SectionResetFunction.fnReset)
    ∧ (∀ (st : SettingsState) (si : SectionIndex) (f : Nat) (gi : GroupIndex),
        resetGroup (addResetFunction st si (some f)) gi =
          resetGroup st gi ++ (if si.group = gi then [f] else []))
    ∧ (∀ (st : SettingsState) (gi' : GroupIndex) (f : Nat) (gi : GroupIndex),
        resetGroup (addResetFunctionGroup st gi' (some f)) gi =
          resetGroup st gi ++ (if gi' = gi then [f] else []))
    ∧ (∀ (st : SettingsState) (si : SectionIndex) (f : Nat),
        resetAll (addResetFunction st si (some f)) = resetAll st ++ [f]) := by
  refine ⟨?_, ?_, ?_, ?_, ?_⟩
  · intro st gi f
    exact mem_resetGroupList st.vecSectionResetFn gi f
  · intro st
    exact resetAllList_eq_map st.vecSectionResetFn
  · intro st si f gi
    exact resetGroupList_append st.vecSectionResetFn ⟨si, f⟩ gi
  · intro st gi' f gi
    exact resetGroupList_append st.vecSectionResetFn ⟨⟨gi', 0⟩, f⟩ gi
  · intro st si f
    exact resetAllList_append st.vecSectionResetFn ⟨si, f⟩

/-- `saveAs` inner loop: a dangling setting contributes nothing. -/
theorem saveSettingList_cons_dangling (conv : PropertyValueConversion) (heap : Heap)
    (ex : Option (Property → Bool)) (secPath : String) (s : Settings_Setting)
    (rest : List Settings_Setting) (hp : heapGet heap s.property = Option.none) :
    saveSettingList conv heap ex secPath (s :: rest) =
      saveSettingList conv heap ex secPath rest := by
  simp [saveSettingList, hp]

/-- `saveAs` inner loop: an excluded setting contributes nothing. -/
theorem saveSettingList_cons_excluded (conv : PropertyValueConversion) (heap : Heap)
    (ex : Option (Property → Bool)) (secPath : String) (s : Settings_Setting)
    (rest : List Settings_Setting) (prop : Property)
    (hp : heapGet heap s.property = some prop) (hex : excludedBy ex prop = true) :
    saveSettingList conv heap ex secPath (s :: rest) =
      saveSettingList conv heap ex secPath rest := by
  simp [saveSettingList, hp, hex]

/-- `saveAs` inner loop: a resident non-excluded setting contributes its
write and its conversion diagnostics. -/
theorem saveSettingList_cons_write (conv : PropertyValueConversion) (heap : Heap)
    (ex : Option (Property → Bool)) (secPath : String) (s : Settings_Setting)
    (rest : List Settings_Setting) (prop : Property)
    (hp : heapGet heap s.property = some prop) (hex : excludedBy ex prop = false) :
    saveSettingList conv heap ex secPath (s :: rest) =
      ((secPath ++ "/" ++ prop.name.key, (conv.toVariant prop).1)
          :: (saveSettingList conv heap ex secPath rest).1,
        (conv.toVariant prop).2 ++ (saveSettingList conv heap ex secPath rest).2) := by
  simp [saveSettingList, hp, hex]

/-- The write and diagnostics of one resident non-excluded setting appear
in the section-level result. -/
theorem saveSettingList_mem (conv : PropertyValueConversion) (heap : Heap)
    (ex : Option (Property → Bool)) (secPath : String) (l : List Settings_Setting)
    (s : Settings_Setting) (prop : Property) (hs : s ∈ l)
    (hp : heapGet heap s.property = some prop) (hex : excludedBy ex prop = false) :
    (secPath ++ "/" ++ prop.name.key, (conv.toVariant prop).1)
        ∈ (saveSettingList conv heap ex secPath l).1
    ∧ ∀ d ∈ (conv.toVariant prop).2, d ∈ (saveSettingList conv heap ex secPath l).2 := by
  induction l with
  | nil => cases hs
  | cons a rest ih =>
    rcases List.mem_cons.mp hs with rfl | hmem
    · rw [saveSettingList_cons_write conv heap ex secPath s rest prop hp hex]
      exact ⟨List.mem_cons_self _ _, fun d hd => List.mem_append_left _ hd⟩
    · have tail := ih hmem
      cases hp' : heapGet heap a.property with
      | none =>
        rw [saveSettingList_cons_dangling conv heap ex secPath a rest hp']
        exact tail
      | some propA =>
        cases hex' : excludedBy ex propA with
        | true =>
          rw [saveSettingList_cons_excluded conv heap ex secPath a rest propA hp' hex']
          exact tail
        | false =>
          rw [saveSettingList_cons_write conv heap ex secPath a rest propA hp' hex']
          exact ⟨List.mem_cons_of_mem _ tail.1, fun d hd => List.mem_append_right _ (tail.2 d hd)⟩

/-- The write and diagnostics of one resident non-excluded setting appear
in the group-level result. -/
theorem saveSectionList_mem (conv : PropertyValueConversion) (heap : Heap)
    (ex : Option (Property → Bool)) (group : Settings_Group)
    (sections : List Settings_Section) (sec : Settings_Section)
    (s : Settings_Setting) (prop : Property) (hsec : sec ∈ sections) (hs : s ∈ sec.vecSetting)
    (hp : heapGet heap s.property = some prop) (hex : excludedBy ex prop = false) :
    (sectionPath group sec ++ "/" ++ prop.name.key, (conv.toVariant prop).1)
        ∈ (saveSectionList conv heap ex group sections).1
    ∧ ∀ d ∈ (conv.toVariant prop).2, d ∈ (saveSectionList conv heap ex group sections).2 := by
  induction sections with
  | nil => cases hsec
  | cons a rest ih =>
    rcases List.mem_cons.mp hsec with rfl | hmem
    · have here := saveSettingList_mem conv heap ex (sectionPath group sec) sec.vecSetting s prop hs hp hex
      exact ⟨by simpa [saveSectionList] using Or.inl here.1,
        fun d hd => by simpa [saveSectionList] using Or.inl (here.2 d hd)⟩
    · have tail := ih hmem
      exact ⟨by simpa [saveSectionList] using Or.inr tail.1,
        fun d hd => by simpa [saveSectionList] using Or.inr (tail.2 d hd)⟩

/-- The write and diagnostics of one resident non-excluded setting appear
in the full `saveAs` result. -/
theorem saveGroupList_mem (conv : PropertyValueConversion) (heap : Heap)
    (ex : Option (Property → Bool)) (groups : List Settings_Group)
    (g : Settings_Group) (sec : Settings_Section) (s : Settings_Setting) (prop : Property)
    (hg : g ∈ groups) (hsec : sec ∈ g.vecSection) (hs : s ∈ sec.vecSetting)
    (hp : heapGet heap s.property = some prop) (hex : excludedBy ex prop = false) :
    (sectionPath g sec ++ "/" ++ prop.name.key, (conv.toVariant prop).1)
        ∈ (saveGroupList conv heap ex groups).1
    ∧ ∀ d ∈ (conv.toVariant prop).2, d ∈ (saveGroupList conv heap ex groups).2 := by
  induction groups with
  | nil => cases hg
  | cons a rest ih =>
    rcases List.mem_cons.mp hg with rfl | hmem
    · have here := saveSectionList_mem conv heap ex g g.vecSection sec s prop hsec hs hp hex
      exact ⟨by simpa [saveGroupList] using Or.inl here.1,
        fun d hd => by simpa [saveGroupList] using Or.inl (here.2 d hd)⟩
    · have tail := ih hmem
      exact ⟨by simpa [saveGroupList] using Or.inr tail.1,
        fun d hd => by simpa [saveGroupList] using Or.inr (tail.2 d hd)⟩

/-- Every write performed by `saveAs` stems from some registered setting
whose property is resident and not excluded, and carries the
three-segment path `group/section/propertyKey`. -/
theorem saveGroupList_shape (conv : PropertyValueConversion) (heap : Heap)
    (ex : Option (Property → Bool)) (groups : List Settings_Group) :
    ∀ w ∈ (saveGroupList conv heap ex groups).1,
      ∃ g ∈ groups, ∃ sec ∈ g.vecSection, ∃ s ∈ sec.vecSetting, ∃ prop,
        heapGet heap s.property = some prop ∧ excludedBy ex prop = false
        ∧ w.1 = g.identifier.key ++ "/" ++ sec.identifier.key ++ "/" ++ prop.name.key
        ∧ w.2 = (conv.toVariant prop).1 := by
  have hsetting : ∀ (secPath : String) (l : List Settings_Setting),
      ∀ w ∈ (saveSettingList conv heap ex secPath l).1,
        ∃ s ∈ l, ∃ prop, heapGet heap s.property = some prop
          ∧ excludedBy ex prop = false
          ∧ w.1 = secPath ++ "/" ++ prop.name.key ∧ w.2 = (conv.toVariant prop).1 := by
    intro secPath l
    induction l with
    | nil => intro w hw; cases hw
    | cons a rest ih =>
      intro w hw
      cases hp : heapGet heap a.property with
      | none =>
        rw [saveSettingList_cons_dangling conv heap ex secPath a rest hp] at hw
        obtain ⟨s, hsmem, rest'⟩ := ih w hw
        exact ⟨s, List.mem_cons_of_mem _ hsmem, rest'⟩
      | some propA =>
        cases hex : excludedBy ex propA with
        | true =>
          rw [saveSettingList_cons_excluded conv heap ex secPath a rest propA hp hex] at hw
          obtain ⟨s, hsmem, rest'⟩ := ih w hw
          exact ⟨s, List.mem_cons_of_mem _ hsmem, rest'⟩
        | false =>
          rw [saveSettingList_cons_write conv heap ex secPath a rest propA hp hex] at hw
          rcases List.mem_cons.mp hw with rfl | hw'
          · exact ⟨a, List.mem_cons_self _ _, propA, hp, hex, rfl, rfl⟩
          · obtain ⟨s, hsmem, rest'⟩ := ih w hw'
            exact ⟨s, List.mem_cons_of_mem _ hsmem, rest'⟩
  have hsection : ∀ (g : Settings_Group) (sections : List Settings_Section),
      ∀ w ∈ (saveSectionList conv heap ex g sections).1,
        ∃ sec ∈ sections, ∃ s ∈ sec.vecSetting, ∃ prop,
          heapGet heap s.property = some prop ∧ excludedBy ex prop = false
          ∧ w.1 = g.identifier.key ++ "/" ++ sec.identifier.key ++ "/" ++ prop.name.key
          ∧ w.2 = (conv.toVariant prop).1 := by
    intro g sections
    induction sections with
    | nil => intro w hw; cases hw
    | cons a rest ih =>
      intro w hw
      rcases List.mem_append.mp (by simpa [saveSectionList] using hw) with hw' | hw'
      · obtain ⟨s, hsmem, prop, hp, hex, hw1, hw2⟩ := hsetting (sectionPath g a) a.vecSetting w hw'
        exact ⟨a, List.mem_cons_self _ _, s, hsmem, prop, hp, hex, hw1, hw2⟩
      · obtain ⟨sec, hsecmem, rest'⟩ := ih w hw'
        exact ⟨sec, List.mem_cons_of_mem _ hsecmem, rest'⟩
  intro w hw
  induction groups with
  | nil => cases hw
  | cons a rest ih =>
    rcases List.mem_append.mp (by simpa [saveGroupList] using hw) with hw' | hw'
    · obtain ⟨sec, hsecmem, s, hsmem, prop, hp, hex, hw1, hw2⟩ := hsection a a.vecSection w hw'
      exact ⟨a, List.mem_cons_self _ _, sec, hsecmem, s, hsmem, prop, hp, hex, hw1, hw2⟩
    · obtain ⟨g, hgmem, rest'⟩ := ih hw'
      exact ⟨g, List.mem_cons_of_mem _ hgmem, rest'⟩

/-- The property kinds `toVariant`/`fromVariant` have no conversion
handler for (check-state, point, transform). -/
def unsupportedKind : PropValue → Bool
  | .checkState _ => true
  | .occPnt _ _ _ => true
  | .occTrsf => true
  | _ => false

/-- C5 counterexample at a concrete registry holding one check-state
setting: `saveAs` does log the diagnostic, but it also performs a store
write at the setting's path — the invalid variant is passed to the
store's `setValue` — so "writes nothing to the store at that setting's
path" is false. -/
theorem saveAs_unsupported_kind_cex :
    let heap : Heap := [(1, ⟨⟨"", "k"⟩, PropValue.checkState 0, Constraint.free⟩)]
    let st := (addSettingToGroup (addGroup emptySettings "g").1 1 ⟨0⟩).1
    saveAs ⟨6⟩ st heap Option.none (some [])
      = (some [("g//k", Variant.none)], [("g//k", Variant.none)],
          ["toVariant() not yet implemented for PropertyCheckState"]) := by
  decide

/-- C5 (amended): for a registered, non-excluded setting whose property
kind has no conversion handler, `saveAs` logs the "not yet implemented"
diagnostic and writes the invalid (null) variant to the store at the
setting's path — the store write still happens, only the value carries
no data. -/
theorem saveAs_unsupported_kind_logs_and_writes_null (conv : PropertyValueConversion)
    (st : SettingsState) (heap : Heap) (ex : Option (Property → Bool))
    (g : Settings_Group) (sec : Settings_Section) (s : Settings_Setting) (prop : Property)
    (hg : g ∈ st.vecGroup) (hsec : sec ∈ g.vecSection) (hs : s ∈ sec.vecSetting)
    (hp : heapGet heap s.property = some prop) (hex : excludedBy ex prop = false)
    (hk : unsupportedKind prop.value = true) :
    ∃ d, conv.toVariant prop = (Variant.none, [d])
      ∧ d ∈ (saveAsWrites conv st heap ex).2
      ∧ (sectionPath g sec ++ "/" ++ prop.name.key, Variant.none)
          ∈ (saveAsWrites conv st heap ex).1 := by
  have htv : ∃ d, conv.toVariant prop = (Variant.none, [d]) := by
    obtain ⟨n, val, c⟩ := prop
    cases val <;> first
      | exact ⟨_, rfl⟩
      | simp [unsupportedKind] at hk
  obtain ⟨d, hd⟩ := htv
  have hm := saveGroupList_mem conv heap ex st.vecGroup g sec s prop hg hsec hs hp hex
  refine ⟨d, hd, ?_, ?_⟩
  · exact hm.2 d (by simp [hd])
  · have h1 := hm.1
    rw [hd] at h1
    exact h1

/-- Witness for the amended C5 at the concrete check-state registry. -/
theorem saveAs_unsupported_kind_logs_and_writes_null_witness :
    let heap : Heap := [(1, ⟨⟨"", "k"⟩, PropValue.checkState 0, Constraint.free⟩)]
    let st := (addSettingToGroup (addGroup emptySettings "g").1 1 ⟨0⟩).1
    let g : Settings_Group := ⟨⟨"", "g"⟩, "", [⟨⟨"", ""⟩, "", true, [⟨1⟩]⟩]⟩
    let sec : Settings_Section := ⟨⟨"", ""⟩, "", true, [⟨1⟩]⟩
    ∃ d, PropertyValueConversion.toVariant ⟨6⟩ ⟨⟨"", "k"⟩, PropValue.checkState 0, Constraint.free⟩
        = (Variant.none, [d])
      ∧ d ∈ (saveAsWrites ⟨6⟩ st heap Option.none).2
      ∧ (sectionPath g sec ++ "/" ++ ("k" : String), Variant.none)
          ∈ (saveAsWrites ⟨6⟩ st heap Option.none).1 :=
  saveAs_unsupported_kind_logs_and_writes_null ⟨6⟩ _ _ Option.none
    ⟨⟨"", "g"⟩, "", [⟨⟨"", ""⟩, "", true, [⟨1⟩]⟩]⟩ ⟨⟨"", ""⟩, "", true, [⟨1⟩]⟩ ⟨1⟩
    ⟨⟨"", "k"⟩, PropValue.checkState 0, Constraint.free⟩
    (by decide) (by decide) (by decide) (by decide) rfl rfl

/-- `listModify` at the position of a freshly appended element. -/
theorem listModify_append_length (f : α → α) (l : List α) (a : α) :
    listModify f l.length (l ++ [a]) = l ++ [f a] := by
  induction l with
  | nil => rfl
  | cons x xs ih => simp [listModify, ih]

/-- The state component of `addSetting` is one `updateSection`. -/
theorem addSetting_fst (st : SettingsState) (p : Nat) (si : SectionIndex) :
    (addSetting st p si).1
      = updateSection st si (fun s => { s with vecSetting := s.vecSetting ++ [⟨p⟩] }) :=
  rfl

/-- `updateSection` on the last group of the registry. -/
theorem updateSection_at_append (vg : List Settings_Group) (rs : List SectionResetFunction)
    (f : Settings_Section → Settings_Section) (a : Settings_Group) :
    updateSection (SettingsState.mk (vg ++ [a]) rs) ⟨⟨vg.length⟩, 0⟩ f
      = SettingsState.mk (vg ++ [{ a with vecSection := listModify f 0 a.vecSection }]) rs := by
  unfold updateSection updateGroup
  rw [listModify_append_length]

/-- The registry state after `addGroup` of a fresh identifier followed by
`addSetting` directly under the new group: one group appended whose only
section is the implicit default section — identified by the empty
string — now holding the one setting. -/
theorem addGroup_then_addSettingToGroup (st : SettingsState) (g : String) (p : Nat)
    (hfresh : findGroupIdx st.vecGroup g = Option.none) :
    (addSettingToGroup (addGroup st g).1 p (addGroup st g).2).1
      = { st with vecGroup :=
            st.vecGroup ++ [⟨⟨"", g⟩, "", [⟨⟨"", ""⟩, "", true, [⟨p⟩]⟩]⟩] } := by
  have h1 : addGroup st g =
      ({ st with vecGroup := st.vecGroup ++ [mkGroup g] }, ⟨st.vecGroup.length⟩) := by
    simp [addGroup, hfresh]
  rw [h1]
  have hgr : ({ st with vecGroup := st.vecGroup ++ [mkGroup g] } : SettingsState).groupAt
      ⟨st.vecGroup.length⟩ = some (mkGroup g) :=
    get?_append_length st.vecGroup (mkGroup g)
  rw [addSettingToGroup_front_default _ p _ (mkGroup g) defaultSection [] hgr rfl rfl]
  rw [addSetting_fst, updateSection_at_append, updateSection_at_append]
  rfl

/-- C4 counterexample: on a fresh registry, a setting registered directly
under `addGroup("g")` is saved at path `g//k` — the middle (section)
segment is the default section's identifier, which is the EMPTY string,
not a non-empty sentinel. -/
theorem default_section_identifier_empty_cex :
    let st2 := (addSettingToGroup (addGroup emptySettings "g").1 1 ⟨0⟩).1
    (st2.sectionAt ⟨⟨0⟩, 0⟩).map (fun sec => (sec.isDefault, sec.identifier.key))
        = some (true, "")
    ∧ (saveAsWrites ⟨6⟩ st2 [(1, ⟨⟨"", "k"⟩, PropValue.bool true, Constraint.free⟩)]
          Option.none).1.map Prod.fst = ["g//k"]
    ∧ "g//k" = "g" ++ "/" ++ "" ++ "/" ++ "k"
    ∧ ("" : String).isEmpty = true := by
  decide

/-- C4 (amended): every path written by `saveAs` is the three slash-joined
segments `groupKey/sectionKey/propertyKey`; a setting registered directly
under a group created by `addGroup` resolves to the group's default
section, whose identifier is the empty string — the non-empty `DEFAULT`
sentinel exists in the code only for the unreachable case of a group with
no sections. -/
theorem setting_path_empty_default_section :
    (∀ (conv : PropertyValueConversion) (heap : Heap) (ex : Option (Property → Bool))
        (st : SettingsState), ∀ w ∈ (saveAsWrites conv st heap ex).1,
      ∃ g ∈ st.vecGroup, ∃ sec ∈ g.vecSection, ∃ s ∈ sec.vecSetting, ∃ prop,
        heapGet heap s.property = some prop ∧ excludedBy ex prop = false
        ∧ w.1 = g.identifier.key ++ "/" ++ sec.identifier.key ++ "/" ++ prop.name.key
        ∧ w.2 = (conv.toVariant prop).1)
    ∧ (∀ (st : SettingsState) (g : String) (p : Nat) (conv : PropertyValueConversion)
        (heap : Heap) (prop : Property),
        isValidIdentifier g = true →
        findGroupIdx st.vecGroup g = Option.none →
        heapGet heap p = some prop →
        ((addSettingToGroup (addGroup st g).1 p (addGroup st g).2).1.sectionAt
            ⟨(addGroup st g).2, 0⟩).map (fun sec => sec.identifier.key) = some ""
        ∧ (g ++ "/" ++ "" ++ "/" ++ prop.name.key, (conv.toVariant prop).1)
            ∈ (saveAsWrites conv
                (addSettingToGroup (addGroup st g).1 p (addGroup st g).2).1 heap
                Option.none).1) := by
  constructor
  · intro conv heap ex st
    exact saveGroupList_shape conv heap ex st.vecGroup
  · intro st g p conv heap prop _ hfresh hp
    have hstate := addGroup_then_addSettingToGroup st g p hfresh
    have hidx : (addGroup st g).2 = (⟨st.vecGroup.length⟩ : GroupIndex) := by
      simp [addGroup, hfresh]
    constructor
    · rw [hstate, hidx]
      show (((st.vecGroup ++ [_]).get? st.vecGroup.length).bind _).map _ = _
      rw [get?_append_length]
      rfl
    · rw [hstate]
      have hm := saveGroupList_mem conv heap Option.none
        (st.vecGroup ++ [⟨⟨"", g⟩, "", [⟨⟨"", ""⟩, "", true, [⟨p⟩]⟩]⟩])
        ⟨⟨"", g⟩, "", [⟨⟨"", ""⟩, "", true, [⟨p⟩]⟩]⟩ ⟨⟨"", ""⟩, "", true, [⟨p⟩]⟩ ⟨p⟩ prop
        (List.mem_append_right _ (List.mem_singleton.mpr rfl))
        (List.mem_singleton.mpr rfl) (List.mem_singleton.mpr rfl) hp rfl
      exact hm.1

/-- Witness for the amended C4 on a fresh registry with group `g` and a
property named `k`. -/
theorem setting_path_empty_default_section_witness :
    ((addSettingToGroup (addGroup emptySettings "g").1 1 (addGroup emptySettings "g").2).1.sectionAt
        ⟨(addGroup emptySettings "g").2, 0⟩).map (fun sec => sec.identifier.key) = some ""
    ∧ ("g" ++ "/" ++ "" ++ "/" ++ ("k" : String), Variant.bool true)
        ∈ (saveAsWrites ⟨6⟩
            (addSettingToGroup (addGroup emptySettings "g").1 1 (addGroup emptySettings "g").2).1
            [(1, ⟨⟨"", "k"⟩, PropValue.bool true, Constraint.free⟩)] Option.none).1 :=
  setting_path_empty_default_section.2 emptySettings "g" 1 ⟨6⟩
    [(1, ⟨⟨"", "k"⟩, PropValue.bool true, Constraint.free⟩)]
    ⟨⟨"", "k"⟩, PropValue.bool true, Constraint.free⟩
    (by decide) rfl rfl

/-- `heapSet` leaves every other pointer's record alone. -/
theorem heapGet_heapSet_ne (h : Heap) (k pid : Nat) (v : Property) (hne : k ≠ pid) :
    heapGet (heapSet h k v) pid = heapGet h pid := by
  induction h with
  | nil => rfl
  | cons a rest ih =>
    obtain ⟨ak, ap⟩ := a
    by_cases hk : ak = k
    · subst hk
      simp [heapSet, heapGet, hne]
    · show heapGet (if ak = k then (ak, v) :: rest else (ak, ap) :: heapSet rest k v) pid = _
      rw [if_neg hk]
      show (if ak = pid then some ap else heapGet (heapSet rest k v) pid)
          = (if ak = pid then some ap else heapGet rest pid)
      rw [ih]

/-- Loading one property touches no other pointer's record. -/
theorem loadPropertyFrom_other (source : Store) (secPath : String) (heap : Heap)
    (qid pid : Nat) (hne : qid ≠ pid) :
    heapGet (loadPropertyFrom source secPath heap qid) pid = heapGet heap pid := by
  unfold loadPropertyFrom
  cases heapGet heap qid with
  | none => rfl
  | some prop =>
    by_cases hc : storeContains source (secPath ++ "/" ++ prop.name.key) = true
    · simp only [hc, if_true]
      rcases fromVariant (some prop) (storeValue source (secPath ++ "/" ++ prop.name.key)) with
        ⟨b, _ | p'⟩
      · rfl
      · exact heapGet_heapSet_ne heap qid pid p' hne
    · simp only [Bool.not_eq_true] at hc
      simp [hc]

/-- One step of the `loadFrom` inner loop. -/
theorem loadSettingList_cons (source : Store) (ex : Option (Property → Bool))
    (secPath : String) (heap : Heap) (a : Settings_Setting) (rest : List Settings_Setting) :
    loadSettingList source ex secPath heap (a :: rest) =
      loadSettingList source ex secPath
        (match heapGet heap a.property with
          | Option.none => heap
          | some prop =>
            if excludedBy ex prop then heap
            else loadPropertyFrom source secPath heap a.property) rest :=
  rfl

/-- A property matching the exclude predicate keeps its value across the
`loadFrom` inner loop: excluded settings are skipped, and other settings
mutate other records only. -/
theorem loadSettingList_retained (source : Store) (f : Property → Bool) (secPath : String)
    (l : List Settings_Setting) :
    ∀ (heap : Heap) (pid : Nat) (prop : Property), heapGet heap pid = some prop →
      f prop = true →
      heapGet (loadSettingList source (some f) secPath heap l) pid = some prop := by
  induction l with
  | nil =>
    intro heap pid prop hp _
    exact hp
  | cons a rest ih =>
    intro heap pid prop hp hf
    rw [loadSettingList_cons]
    by_cases hqp : a.property = pid
    · subst hqp
      rw [hp]
      have hex : excludedBy (some f) prop = true := hf
      show heapGet (loadSettingList source (some f) secPath
          (if excludedBy (some f) prop = true then heap
            else loadPropertyFrom source secPath heap a.property) rest) a.property = some prop
      rw [if_pos hex]
      exact ih heap a.property prop hp hf
    · cases hq : heapGet heap a.property with
      | none => exact ih heap pid prop hp hf
      | some propA =>
        show heapGet (loadSettingList source (some f) secPath
            (if excludedBy (some f) propA = true then heap
              else loadPropertyFrom source secPath heap a.property) rest) pid = some prop
        cases hexA : excludedBy (some f) propA with
        | true =>
          exact ih heap pid prop hp hf
        | false =>
          have hpres : heapGet (loadPropertyFrom source secPath heap a.property) pid = some prop := by
            rw [loadPropertyFrom_other source secPath heap a.property pid hqp]
            exact hp
          exact ih _ pid prop hpres hf

/-- Retention lifted over a group's sections. -/
theorem loadSectionList_retained (source : Store) (f : Property → Bool)
    (group : Settings_Group) (sections : List Settings_Section) :
    ∀ (heap : Heap) (pid : Nat) (prop : Property), heapGet heap pid = some prop →
      f prop = true →
      heapGet (loadSectionList source (some f) group heap sections) pid = some prop := by
  induction sections with
  | nil =>
    intro heap pid prop hp _
    exact hp
  | cons a rest ih =>
    intro heap pid prop hp hf
    exact ih _ pid prop
      (loadSettingList_retained source f (sectionPath group a) a.vecSetting heap pid prop hp hf) hf

/-- Retention lifted over the whole registry. -/
theorem loadGroupList_retained (source : Store) (f : Property → Bool)
    (groups : List Settings_Group) :
    ∀ (heap : Heap) (pid : Nat) (prop : Property), heapGet heap pid = some prop →
      f prop = true →
      heapGet (loadGroupList source (some f) heap groups) pid = some prop := by
  induction groups with
  | nil =>
    intro heap pid prop hp _
    exact hp
  | cons a rest ih =>
    intro heap pid prop hp hf
    exact ih _ pid prop
      (loadSectionList_retained source f a a.vecSection heap pid prop hp hf) hf

/-- Two exclude predicates agreeing on every property drive `loadFrom`
identically. -/
theorem loadSettingList_congr_ex (source : Store) (ex1 ex2 : Option (Property → Bool))
    (secPath : String) (h : ∀ prop, excludedBy ex1 prop = excludedBy ex2 prop)
    (l : List Settings_Setting) :
    ∀ heap : Heap, loadSettingList source ex1 secPath heap l
      = loadSettingList source ex2 secPath heap l := by
  induction l with
  | nil => intro heap; rfl
  | cons a rest ih =>
    intro heap
    rw [loadSettingList_cons, loadSettingList_cons]
    cases hq : heapGet heap a.property with
    | none => exact ih heap
    | some propA =>
      show loadSettingList source ex1 secPath
          (if excludedBy ex1 propA = true then heap
            else loadPropertyFrom source secPath heap a.property) rest
        = loadSettingList source ex2 secPath
          (if excludedBy ex2 propA = true then heap
            else loadPropertyFrom source secPath heap a.property) rest
      rw [h propA]
      exact ih _

/-- Predicate congruence lifted over sections. -/
theorem loadSectionList_congr_ex (source : Store) (ex1 ex2 : Option (Property → Bool))
    (group : Settings_Group) (h : ∀ prop, excludedBy ex1 prop = excludedBy ex2 prop)
    (sections : List Settings_Section) :
    ∀ heap : Heap, loadSectionList source ex1 group heap sections
      = loadSectionList source ex2 group heap sections := by
  induction sections with
  | nil => intro heap; rfl
  | cons a rest ih =>
    intro heap
    show loadSectionList source ex1 group _ rest = loadSectionList source ex2 group _ rest
    rw [loadSettingList_congr_ex source ex1 ex2 (sectionPath group a) h a.vecSetting heap]
    exact ih _

/-- Predicate congruence lifted over the registry. -/
theorem loadGroupList_congr_ex (source : Store) (ex1 ex2 : Option (Property → Bool))
    (h : ∀ prop, excludedBy ex1 prop = excludedBy ex2 prop) (groups : List Settings_Group) :
    ∀ heap : Heap, loadGroupList source ex1 heap groups
      = loadGroupList source ex2 heap groups := by
  induction groups with
  | nil => intro heap; rfl
  | cons a rest ih =>
    intro heap
    show loadGroupList source ex1 _ rest = loadGroupList source ex2 _ rest
    rw [loadSectionList_congr_ex source ex1 ex2 a h a.vecSection heap]
    exact ih _

/-- If every resident setting of the list that resolves to path `π` is
excluded, `saveAs`'s inner loop writes nothing at `π`. -/
theorem saveSettingList_not_written (conv : PropertyValueConversion) (heap : Heap)
    (ex : Option (Property → Bool)) (secPath : String) (l : List Settings_Setting)
    (π : String)
    (h : ∀ s ∈ l, ∀ prop, heapGet heap s.property = some prop →
        secPath ++ "/" ++ prop.name.key = π → excludedBy ex prop = true) :
    π ∉ (saveSettingList conv heap ex secPath l).1.map Prod.fst := by
  induction l with
  | nil => simp [saveSettingList]
  | cons a rest ih =>
    have htail := ih (fun s hs => h s (List.mem_cons_of_mem a hs))
    cases hp : heapGet heap a.property with
    | none =>
      rw [saveSettingList_cons_dangling conv heap ex secPath a rest hp]
      exact htail
    | some propA =>
      cases hex : excludedBy ex propA with
      | true =>
        rw [saveSettingList_cons_excluded conv heap ex secPath a rest propA hp hex]
        exact htail
      | false =>
        rw [saveSettingList_cons_write conv heap ex secPath a rest propA hp hex]
        intro hmem
        rcases List.mem_cons.mp hmem with heq | hmem'
        · have := h a (List.mem_cons_self a rest) propA hp heq.symm
          rw [this] at hex
          exact Bool.noConfusion hex
        · exact htail hmem'

/-- Path-exclusion lifted over a group's sections. -/
theorem saveSectionList_not_written (conv : PropertyValueConversion) (heap : Heap)
    (ex : Option (Property → Bool)) (group : Settings_Group)
    (sections : List Settings_Section) (π : String)
    (h : ∀ sec ∈ sections, ∀ s ∈ sec.vecSetting, ∀ prop,
        heapGet heap s.property = some prop →
        sectionPath group sec ++ "/" ++ prop.name.key = π → excludedBy ex prop = true) :
    π ∉ (saveSectionList conv heap ex group sections).1.map Prod.fst := by
  induction sections with
  | nil => simp [saveSectionList]
  | cons a rest ih =>
    intro hmem
    rw [show (saveSectionList conv heap ex group (a :: rest)).1
        = (saveSettingList conv heap ex (sectionPath group a) a.vecSetting).1
          ++ (saveSectionList conv heap ex group rest).1 from rfl,
      List.map_append] at hmem
    rcases List.mem_append.mp hmem with h1 | h2
    · exact saveSettingList_not_written conv heap ex (sectionPath group a) a.vecSetting π
        (h a (List.mem_cons_self a rest)) h1
    · exact ih (fun sec hs => h sec (List.mem_cons_of_mem a hs)) h2

/-- Path-exclusion lifted over the registry: a path all of whose settings
are excluded receives no write. -/
theorem saveGroupList_not_written (conv : PropertyValueConversion) (heap : Heap)
    (ex : Option (Property → Bool)) (groups : List Settings_Group) (π : String)
    (h : ∀ g ∈ groups, ∀ sec ∈ g.vecSection, ∀ s ∈ sec.vecSetting, ∀ prop,
        heapGet heap s.property = some prop →
        sectionPath g sec ++ "/" ++ prop.name.key = π → excludedBy ex prop = true) :
    π ∉ (saveGroupList conv heap ex groups).1.map Prod.fst := by
  induction groups with
  | nil => simp [saveGroupList]
  | cons a rest ih =>
    intro hmem
    rw [show (saveGroupList conv heap ex (a :: rest)).1
        = (saveSectionList conv heap ex a a.vecSection).1
          ++ (saveGroupList conv heap ex rest).1 from rfl,
      List.map_append] at hmem
    rcases List.mem_append.mp hmem with h1 | h2
    · exact saveSectionList_not_written conv heap ex a a.vecSection π
        (h a (List.mem_cons_self a rest)) h1
    · exact ih (fun g hg => h g (List.mem_cons_of_mem a hg)) h2

/-- Whether the save/load loops keep a setting when the exclude predicate
`f` is active: dangling settings are kept (both runs skip them anyway),
resident settings are kept when their property does not match `f`. -/
def keepSetting (heap : Heap) (f : Property → Bool) (s : Settings_Setting) : Bool :=
  match heapGet heap s.property with
  | some prop => !(f prop)
  | Option.none => true

/-- The registry with every setting whose property matches `f` removed. -/
def dropExcluded (heap : Heap) (f : Property → Bool) (st : SettingsState) : SettingsState :=
  { st with vecGroup := st.vecGroup.map (fun g =>
      { g with vecSection := g.vecSection.map (fun sec =>
          { sec with vecSetting := sec.vecSetting.filter (keepSetting heap f) }) }) }

/-- Saving under an exclude predicate is saving the filtered setting list
with no predicate. -/
theorem saveSettingList_dropExcluded (conv : PropertyValueConversion) (heap : Heap)
    (f : Property → Bool) (secPath : String) (l : List Settings_Setting) :
    saveSettingList conv heap (some f) secPath l
      = saveSettingList conv heap Option.none secPath (l.filter (keepSetting heap f)) := by
  induction l with
  | nil => rfl
  | cons a rest ih =>
    cases hp : heapGet heap a.property with
    | none =>
      have hk : keepSetting heap f a = true := by simp [keepSetting, hp]
      rw [saveSettingList_cons_dangling conv heap (some f) secPath a rest hp,
        List.filter_cons_of_pos hk,
        saveSettingList_cons_dangling conv heap Option.none secPath a _ hp]
      exact ih
    | some propA =>
      cases hf : f propA with
      | true =>
        have hex : excludedBy (some f) propA = true := hf
        have hk : keepSetting heap f a = false := by simp [keepSetting, hp, hf]
        rw [saveSettingList_cons_excluded conv heap (some f) secPath a rest propA hp hex,
          List.filter_cons_of_neg (by simp [hk])]
        exact ih
      | false =>
        have hex : excludedBy (some f) propA = false := hf
        have hk : keepSetting heap f a = true := by simp [keepSetting, hp, hf]
        rw [saveSettingList_cons_write conv heap (some f) secPath a rest propA hp hex,
          List.filter_cons_of_pos hk,
          saveSettingList_cons_write conv heap Option.none secPath a _ propA hp rfl, ih]

/-- `saveAs`'s section loop only reads the group's identifier. -/
theorem saveSectionList_congr_group (conv : PropertyValueConversion) (heap : Heap)
    (ex : Option (Property → Bool)) (g₁ g₂ : Settings_Group)
    (hid : g₁.identifier = g₂.identifier) (sections : List Settings_Section) :
    saveSectionList conv heap ex g₁ sections = saveSectionList conv heap ex g₂ sections := by
  induction sections with
  | nil => rfl
  | cons a rest ih =>
    have hpath : sectionPath g₁ a = sectionPath g₂ a := by
      unfold sectionPath
      rw [hid]
    simp only [saveSectionList, hpath, ih]

/-- Filter equivalence lifted over a group's sections. -/
theorem saveSectionList_dropExcluded (conv : PropertyValueConversion) (heap : Heap)
    (f : Property → Bool) (group : Settings_Group) (sections : List Settings_Section) :
    saveSectionList conv heap (some f) group sections
      = saveSectionList conv heap Option.none group
          (sections.map (fun sec =>
            { sec with vecSetting := sec.vecSetting.filter (keepSetting heap f) })) := by
  induction sections with
  | nil => rfl
  | cons a rest ih =>
    simp only [saveSectionList, List.map_cons, ih, saveSettingList_dropExcluded]
    rfl

/-- C8 save half, amended: `saveAs` under an exclude predicate performs
exactly the writes and diagnostics of a predicate-free `saveAs` over the
registry with the excluded settings removed. -/
theorem saveGroupList_dropExcluded (conv : PropertyValueConversion) (heap : Heap)
    (f : Property → Bool) (groups : List Settings_Group) :
    saveGroupList conv heap (some f) groups
      = saveGroupList conv heap Option.none
          (groups.map (fun g =>
            { g with vecSection := g.vecSection.map (fun sec =>
                { sec with vecSetting := sec.vecSetting.filter (keepSetting heap f) }) })) := by
  induction groups with
  | nil => rfl
  | cons a rest ih =>
    simp only [saveGroupList, List.map_cons, ih]
    rw [saveSectionList_dropExcluded conv heap f a a.vecSection,
      saveSectionList_congr_group conv heap Option.none a
        { a with vecSection := a.vecSection.map (fun sec =>
            { sec with vecSetting := sec.vecSetting.filter (keepSetting heap f) }) } rfl]

/-- C8 counterexample: two distinct properties that share the name key
`k` sit in the same default section, so both settings resolve to the
path `g//k`; the exclude predicate matches the first property, yet after
`saveAs` the store holds an entry at that path (written for the second
setting) — "nothing written to the store at its path" fails as
universally stated. -/
theorem saveAs_exclude_path_collision_cex :
    let heap : Heap := [(1, ⟨⟨"", "k"⟩, PropValue.bool true, Constraint.free⟩),
                        (2, ⟨⟨"", "k"⟩, PropValue.bool false, Constraint.free⟩)]
    let st := (addSettingToGroup
        ((addSettingToGroup (addGroup emptySettings "g").1 1 ⟨0⟩).1) 2 ⟨0⟩).1
    let f : Property → Bool := fun prop => decide (prop.value = PropValue.bool true)
    (st.sectionAt ⟨⟨0⟩, 0⟩).map (fun sec => sec.vecSetting.map (fun s => s.property))
        = some [1, 2]
    ∧ (heapGet heap 1).map f = some true
    ∧ (heapGet heap 1).map (fun prop => "g" ++ "/" ++ "" ++ "/" ++ prop.name.key)
        = some "g//k"
    ∧ (saveAs ⟨6⟩ st heap (some f) (some [])).1.map (fun store => storeContains store "g//k")
        = some true := by
  decide

/-- C8 (amended): an excluded Setting contributes nothing to `saveAs` —
saving under an exclude predicate equals a predicate-free save of the
registry with excluded settings removed, so all non-excluded settings
are still processed; a path, all of whose resident settings are
excluded, receives no write (a path can still be written when another
non-excluded setting resolves to the same path); a property matching
`loadFrom`'s exclude predicate retains its pre-load value regardless of
the store's contents; and a predicate excluding nothing loads exactly
like no predicate. -/
theorem exclude_predicate_semantics :
    (∀ (conv : PropertyValueConversion) (st : SettingsState) (heap : Heap)
        (f : Property → Bool),
      saveAsWrites conv st heap (some f)
        = saveAsWrites conv (dropExcluded heap f st) heap Option.none)
    ∧ (∀ (conv : PropertyValueConversion) (st : SettingsState) (heap : Heap)
        (f : Property → Bool) (π : String),
        (∀ g ∈ st.vecGroup, ∀ sec ∈ g.vecSection, ∀ s ∈ sec.vecSetting, ∀ prop,
            heapGet heap s.property = some prop →
            sectionPath g sec ++ "/" ++ prop.name.key = π → f prop = true) →
        π ∉ (saveAsWrites conv st heap (some f)).1.map Prod.fst)
    ∧ (∀ (st : SettingsState) (heap : Heap) (source : Store) (f : Property → Bool)
        (pid : Nat) (prop : Property),
        heapGet heap pid = some prop → f prop = true →
        heapGet (loadFrom st heap source (some f)) pid = some prop)
    ∧ (∀ (st : SettingsState) (heap : Heap) (source : Store),
        loadFrom st heap source (some (fun _ => false))
          = loadFrom st heap source Option.none) := by
  refine ⟨?_, ?_, ?_, ?_⟩
  · intro conv st heap f
    exact saveGroupList_dropExcluded conv heap f st.vecGroup
  · intro conv st heap f π h
    exact saveGroupList_not_written conv heap (some f) st.vecGroup π
      (fun g hg sec hsec s hs prop hp hpath => h g hg sec hsec s hs prop hp hpath)
  · intro st heap source f pid prop hp hf
    exact loadGroupList_retained source f st.vecGroup heap pid prop hp hf
  · intro st heap source
    exact loadGroupList_congr_ex source (some (fun _ => false)) Option.none
      (fun _ => rfl) st.vecGroup heap

/-- Witness for the amended C8: with a single setting whose property is
excluded, its path receives no write, and under `loadFrom` the excluded
property keeps its value although the store holds a different one at its
path. -/
theorem exclude_predicate_semantics_witness :
    (("g" ++ "/" ++ "" ++ "/" ++ "k" : String) ∉
      (saveAsWrites ⟨6⟩ (addSettingToGroup (addGroup emptySettings "g").1 1 ⟨0⟩).1
        [(1, ⟨⟨"", "k"⟩, PropValue.bool true, Constraint.free⟩)]
        (some (fun prop => decide (prop.value = PropValue.bool true)))).1.map Prod.fst)
    ∧ heapGet (loadFrom (addSettingToGroup (addGroup emptySettings "g").1 1 ⟨0⟩).1
        [(1, ⟨⟨"", "k"⟩, PropValue.bool true, Constraint.free⟩)]
        [("g//k", Variant.bool false)]
        (some (fun prop => decide (prop.value = PropValue.bool true)))) 1
      = some ⟨⟨"", "k"⟩, PropValue.bool true, Constraint.free⟩ :=
  ⟨exclude_predicate_semantics.2.1 ⟨6⟩
      (addSettingToGroup (addGroup emptySettings "g").1 1 ⟨0⟩).1
      [(1, ⟨⟨"", "k"⟩, PropValue.bool true, Constraint.free⟩)]
      (fun prop => decide (prop.value = PropValue.bool true)) _
      (by
        intro g hg sec hsec s hs prop hp hpath
        have hg' : g ∈ [(⟨⟨"", "g"⟩, "", [⟨⟨"", ""⟩, "", true, [⟨1⟩]⟩]⟩ : Settings_Group)] := hg
        obtain rfl := List.mem_singleton.mp hg'
        have hsec' : sec ∈ [(⟨⟨"", ""⟩, "", true, [⟨1⟩]⟩ : Settings_Section)] := hsec
        obtain rfl := List.mem_singleton.mp hsec'
        have hs' : s ∈ [(⟨1⟩ : Settings_Setting)] := hs
        obtain rfl := List.mem_singleton.mp hs'
        have hp' : some (⟨⟨"", "k"⟩, PropValue.bool true, Constraint.free⟩ : Property)
            = some prop := hp
        injection hp' with hpp
        subst hpp
        rfl),
   exclude_predicate_semantics.2.2.1
      (addSettingToGroup (addGroup emptySettings "g").1 1 ⟨0⟩).1
      [(1, ⟨⟨"", "k"⟩, PropValue.bool true, Constraint.free⟩)]
      [("g//k", Variant.bool false)]
      (fun prop => decide (prop.value = PropValue.bool true)) 1
      ⟨⟨"", "k"⟩, PropValue.bool true, Constraint.free⟩ rfl rfl⟩

end Mayo
